import Mathlib

/-!
# `bdn::AsyncOpRunnable<ResultType>` and `bdn::winuwp::WindowCore`

A shallow embedding of `boden/include/bdn/AsyncOpRunnable.h`, and of the bounds
computation of `boden/include/bdn/winuwp/WindowCore.h`.

The object is a record of its data members.  The members of the nested
`DoneNotifier` (`_pOpWeak`, `_done`, and the subscriber list it inherits from
`Notifier<IAsyncOp&>`) are stored in the same record, because every operation
owns exactly one notifier.  Every member function is a function on that record.
The sections of `run` and `signalStop` that hold `_mutex` are separate
definitions, so that the states between them can be named.

Three counters and one list are ghost members: they are written, never read,
by the embedded code, and they record how often `doOp` ran, how often the
outcome was written, how often `DoneNotifier::notify` ran, and which callbacks
were invoked with which view of the operation.

Calls are executed in two ways: one after the other, each to completion
(`AsyncOpRunnable.exec`, `reached`), and interleaved, one atomic block at a time
(`Interleaving.play`, `interleaved`).
-/

namespace bdn

/-- Exceptions that can travel through `std::exception_ptr`: the two library
errors the header names, and any other exception `e` of the work body. -/
inductive Exc (E : Type) where
  | AbortedError
  | UnfinishedError
  | other (e : E)
  deriving DecidableEq, Repr

/-- A subscriber `std::function<void(IAsyncOp&)>`.  A callback is identified by
`id`; when it is invoked it looks at the operation it is handed (`isDone`,
`getResult`) and then subscribes the callbacks `resub`, in order, to the same
notifier. -/
inductive Callback where
  | mk (id : Nat) (resub : List Callback)

/-- What a call of `getResult` does: return a value, throw, or dereference the
null `_pResult` (undefined behaviour in the source). -/
inductive Returned (R E : Type) where
  | value (v : R)
  | thrown (e : Exc E)
  | nullDeref
  deriving DecidableEq, Repr

/-- One invocation of a callback: which callback, the address of the `IAsyncOp&`
it was handed, and what `isDone()` and `getResult()` gave through that handle at
that moment. -/
structure Invocation (R E : Type) where
  func : Nat
  op : Nat
  sawDone : Bool
  sawResult : Returned R E
  deriving DecidableEq, Repr

/-- The data members of `AsyncOpRunnable<ResultType>` and of its `DoneNotifier`.
`thisPtr` is the address of the object.  `_error` is the `std::exception_ptr`
(`none` is the null pointer), `_pResult` the `ResultType*`.  `doOpCalls`,
`outcomeWrites`, `notifyCalls` and `invoked` are ghost members. -/
structure AsyncOpRunnable (R E : Type) where
  thisPtr : Nat
  _stopSignalled : Bool
  _abortedBeforeStart : Bool
  _started : Bool
  _pOpWeak : Nat
  _done : Bool
  _subs : List Callback
  _error : Option (Exc E)
  _pResult : Option R
  doOpCalls : Nat
  outcomeWrites : Nat
  notifyCalls : Nat
  invoked : List (Invocation R E)

variable {R E : Type}

/-- The constructor `AsyncOpRunnable() : _doneNotifier(this)` together with the
default member initialisers, for an object at address `addr`. -/
def AsyncOpRunnable.construct (addr : Nat) : AsyncOpRunnable R E :=
  { thisPtr := addr
    _stopSignalled := false
    _abortedBeforeStart := false
    _started := false
    _pOpWeak := addr
    _done := false
    _subs := []
    _error := none
    _pResult := none
    doOpCalls := 0
    outcomeWrites := 0
    notifyCalls := 0
    invoked := [] }

/-- The member `DoneNotifier::isDone`: `return _done;`. -/
def DoneNotifier.isDone (s : AsyncOpRunnable R E) : Bool :=
  s._done

/-- The member `AsyncOpRunnable::isDone`: `return _doneNotifier.isDone();`. -/
def AsyncOpRunnable.isDone (s : AsyncOpRunnable R E) : Bool :=
  DoneNotifier.isDone s

/-- The member `AsyncOpRunnable::isStopSignalled`: `return _stopSignalled;`. -/
def AsyncOpRunnable.isStopSignalled (s : AsyncOpRunnable R E) : Bool :=
  s._stopSignalled

/-- The member `AsyncOpRunnable::getResult`:
`if(!isDone()) throw UnfinishedError(); if(_error) std::rethrow_exception(_error);
return *_pResult;`. -/
def AsyncOpRunnable.getResult (s : AsyncOpRunnable R E) : Returned R E :=
  if !s.isDone then .thrown .UnfinishedError
  else
    match s._error with
    | some e => .thrown e
    | none =>
      match s._pResult with
      | some v => .value v
      | none => .nullDeref

/-- The record of a callback `func` invoked with the operation at address `op`,
while the operation is in state `s`. -/
def AsyncOpRunnable.observe (func op : Nat) (s : AsyncOpRunnable R E) : Invocation R E :=
  { func := func, op := op, sawDone := s.isDone, sawResult := s.getResult }

/-- Modelled from the spec: `Notifier::subscribe` of the base class
`Notifier<IAsyncOp&>`, whose header is not among the sources: "store `callback`
in a pending set and return"; callbacks are kept in registration order. -/
def Notifier.subscribe (func : Callback) (s : AsyncOpRunnable R E) : AsyncOpRunnable R E :=
  { s with _subs := s._subs ++ [func] }

mutual
/-- The call `func(op)` of a callback: the invocation is recorded, then the
callback makes its own `subscribe` calls. -/
def Callback.call (op : Nat) : Callback → AsyncOpRunnable R E → AsyncOpRunnable R E
  | .mk id resub, s =>
    Callback.resubscribe resub { s with invoked := s.invoked ++ [s.observe id op] }
/-- The `subscribe` calls a callback makes from inside its invocation; each is
`DoneNotifier::subscribe` (see `resubscribe_eq_foldl`). -/
def Callback.resubscribe : List Callback → AsyncOpRunnable R E → AsyncOpRunnable R E
  | [], s => s
  | g :: gs, s =>
    Callback.resubscribe gs (if s._done then Callback.call s._pOpWeak g s else Notifier.subscribe g s)
end

/-- The member `DoneNotifier::subscribe`:
`if(_done) func(*_pOpWeak); else Notifier::subscribe(pResultSub, func);`. -/
def DoneNotifier.subscribe (func : Callback) (s : AsyncOpRunnable R E) : AsyncOpRunnable R E :=
  if s._done then func.call s._pOpWeak s else Notifier.subscribe func s

/-- Modelled from the spec: `Notifier::notify` of the base class
`Notifier<IAsyncOp&>`, whose header is not among the sources: it "invokes every
currently-pending callback, passing a reference/handle to the completed
operation", "in registration order", "after which it holds none (all fired)". -/
def Notifier.notify (op : Nat) (s : AsyncOpRunnable R E) : AsyncOpRunnable R E :=
  { s._subs.foldl (fun t func => func.call op t) s with _subs := [] }

/-- The state in which `DoneNotifier::notify` invokes the pending callbacks:
`_done` is set, and the ghost counter of `notify` calls is advanced. -/
def DoneNotifier.fired (s : AsyncOpRunnable R E) : AsyncOpRunnable R E :=
  { s with _done := true, notifyCalls := s.notifyCalls + 1 }

/-- The member `DoneNotifier::notify`: `_done = true; Notifier::notify(op);`. -/
def DoneNotifier.notify (op : Nat) (s : AsyncOpRunnable R E) : AsyncOpRunnable R E :=
  Notifier.notify op (DoneNotifier.fired s)

/-- The block of `signalStop` that holds `_mutex`; the second component is the
local `actuallyAborted`. -/
def AsyncOpRunnable.signalStopLocked (s : AsyncOpRunnable R E) : AsyncOpRunnable R E × Bool :=
  let s1 := { s with _stopSignalled := true }
  if !s1._started && !s1._abortedBeforeStart then
    ({ s1 with
        _abortedBeforeStart := true
        _error := some .AbortedError
        outcomeWrites := s1.outcomeWrites + 1 }, true)
  else
    (s1, false)

/-- The member `AsyncOpRunnable::signalStop`: the locked block, then
`if(actuallyAborted) _doneNotifier.notify( *this );`. -/
def AsyncOpRunnable.signalStop (s : AsyncOpRunnable R E) : AsyncOpRunnable R E :=
  match s.signalStopLocked with
  | (s1, true) => DoneNotifier.notify s1.thisPtr s1
  | (s1, false) => s1

/-- The block of `run` that holds `_mutex`: `none` is the early `return` taken
when `_abortedBeforeStart` is set, otherwise `_started = true`. -/
def AsyncOpRunnable.runLocked (s : AsyncOpRunnable R E) : Option (AsyncOpRunnable R E) :=
  if s._abortedBeforeStart then none else some { s with _started := true }

/-- The `try`/`catch` of `run`: `_pResult = new ResultType( doOp() );`, or
`_error = std::current_exception();` when `doOp` throws.  The pure virtual
`doOp` is the parameter; it may poll `isStopSignalled()`. -/
def AsyncOpRunnable.runDoOp (doOp : Bool → Except (Exc E) R) (s : AsyncOpRunnable R E) :
    AsyncOpRunnable R E :=
  match doOp s.isStopSignalled with
  | .ok v =>
    { s with
        _pResult := some v
        doOpCalls := s.doOpCalls + 1
        outcomeWrites := s.outcomeWrites + 1 }
  | .error e =>
    { s with
        _error := some e
        doOpCalls := s.doOpCalls + 1
        outcomeWrites := s.outcomeWrites + 1 }

/-- The member `AsyncOpRunnable::run`: the locked block, the `try`/`catch`
around `doOp`, then `_doneNotifier.notify( *this );`. -/
def AsyncOpRunnable.run (doOp : Bool → Except (Exc E) R) (s : AsyncOpRunnable R E) :
    AsyncOpRunnable R E :=
  match s.runLocked with
  | none => s
  | some s1 =>
    let s2 := s1.runDoOp doOp
    DoneNotifier.notify s2.thisPtr s2

/-- A completed call made on the operation by its executor, a canceller or an
observer (`subscribe` goes through `onDone()`). -/
inductive Call where
  | run
  | signalStop
  | subscribe (func : Callback)

/-- Whether a call is `run()`. -/
def Call.isRun : Call → Bool
  | .run => true
  | _ => false

/-- The effect of one completed call. -/
def AsyncOpRunnable.step (doOp : Bool → Except (Exc E) R) (s : AsyncOpRunnable R E) :
    Call → AsyncOpRunnable R E
  | .run => s.run doOp
  | .signalStop => s.signalStop
  | .subscribe func => DoneNotifier.subscribe func s

/-- The effect of a sequence of completed calls, one after the other. -/
def AsyncOpRunnable.exec (doOp : Bool → Except (Exc E) R) (s : AsyncOpRunnable R E)
    (calls : List Call) : AsyncOpRunnable R E :=
  calls.foldl (AsyncOpRunnable.step doOp) s

mutual
/-- The identifiers of a callback and of everything it subscribes, in the order
in which they run once the notifier has fired. -/
def Callback.ids : Callback → List Nat
  | .mk id resub => id :: Callback.idsList resub
/-- The identifiers of a list of callbacks, see `Callback.ids`. -/
def Callback.idsList : List Callback → List Nat
  | [] => []
  | g :: gs => g.ids ++ Callback.idsList gs
end

/-- The identifiers a call subscribes: those of the callback for `subscribe`,
none for `run` and `signalStop`. -/
def Call.ids : Call → List Nat
  | .subscribe func => func.ids
  | _ => []

/-- All identifiers subscribed by a sequence of calls, in order. -/
def Call.subscribed (calls : List Call) : List Nat :=
  calls.flatMap Call.ids

/-- How many `run()` calls a sequence of calls contains. -/
def Call.runs (calls : List Call) : Nat :=
  calls.countP Call.isRun

/-- How often the callback `c` has been invoked so far. -/
def AsyncOpRunnable.invocations (c : Nat) (s : AsyncOpRunnable R E) : Nat :=
  s.invoked.countP (fun i => i.func == c)

/-- The invocations made by the call `func(op)` in state `s` once `_done` is set:
`func` sees the handle `op`, what it subscribes is called with `*_pOpWeak`. -/
def Callback.views (op : Nat) (s : AsyncOpRunnable R E) : Callback → List (Invocation R E)
  | .mk id resub => s.observe id op :: (Callback.idsList resub).map (fun i => s.observe i s._pOpWeak)

/-- The flags of a state reached by completed calls from a fresh operation. -/
structure Settled (s : AsyncOpRunnable R E) : Prop where
  weak : s._pOpWeak = s.thisPtr
  exclusive : ¬ (s._started = true ∧ s._abortedBeforeStart = true)
  done_iff : s._done = true ↔ (s._abortedBeforeStart = true ∨ 0 < s.doOpCalls)
  started_iff : s._started = true ↔ 0 < s.doOpCalls
  no_subs : s._done = true → s._subs = []
  aborted_error : s._abortedBeforeStart = true → s._error = some .AbortedError

/-- The bookkeeping of callbacks against the identifiers `ids` subscribed so
far: before the notifier fires nothing has been invoked and exactly `ids` are
pending; afterwards exactly `ids` have been invoked and nothing is pending. -/
structure Delivered (ids : List Nat) (s : AsyncOpRunnable R E) : Prop where
  pending : s._done = false → s.invoked = [] ∧ Callback.idsList s._subs = ids
  fired : s._done = true → s.invoked.map (fun i => i.func) = ids ∧ s._subs = []

/-- What `getResult` gives for an outcome of the body once that outcome is the
stored one: the value, or the exception rethrown. -/
def Returned.ofBody : Except (Exc E) R → Returned R E
  | .ok v => .value v
  | .error e => .thrown e

/-- The lifecycle states of the spec's data model. -/
inductive Lifecycle where
  | Pending
  | Started
  | AbortedBeforeStart
  | Completed
  deriving DecidableEq, Repr

/-- The spec's `state`, read off the members of the source, which has no such
variable: AbortedBeforeStart when `_abortedBeforeStart` is set; otherwise
Pending until `_started` is set, then Started until the notifier has fired, then
Completed. -/
def AsyncOpRunnable.state (s : AsyncOpRunnable R E) : Lifecycle :=
  if s._abortedBeforeStart then .AbortedBeforeStart
  else if s._started then (if s._done then .Completed else .Started)
  else .Pending

/-- The state of an operation constructed at address `addr` after the completed
calls `calls`, with `doOp` as its body. -/
def reached (doOp : Bool → Except (Exc E) R) (addr : Nat) (calls : List Call) :
    AsyncOpRunnable R E :=
  (AsyncOpRunnable.construct addr).exec doOp calls

/-! ## `run` and `signalStop` with the exceptions that can leave them -/

/-- How a call ends when callbacks may throw: the state it leaves behind, and the
exception that leaves the call, if any. -/
structure Ended (R E : Type) where
  op : AsyncOpRunnable R E
  escaped : Option (Exc E)

mutual
/-- The call `func(op)` of a callback that may throw: `throwsOf id` is the
exception the callback `id` throws when it is invoked, if any.  The invocation
is recorded; a callback that throws does so at once, otherwise it makes its
`subscribe` calls, and an exception that leaves one of them leaves the callback
too (it has no handler). -/
def Callback.callThrowing (throwsOf : Nat → Option (Exc E)) (op : Nat) :
    Callback → AsyncOpRunnable R E → Ended R E
  | .mk id resub, s =>
    match throwsOf id with
    | some x => { op := { s with invoked := s.invoked ++ [s.observe id op] }, escaped := some x }
    | none =>
      Callback.resubscribeThrowing throwsOf resub
        { s with invoked := s.invoked ++ [s.observe id op] }
/-- The `subscribe` calls a callback makes from inside its invocation, each of
them `DoneNotifier::subscribe` with callbacks that may throw:
`if(_done) func(*_pOpWeak); else Notifier::subscribe(pResultSub, func);`, the
call of `func` standing in no handler. -/
def Callback.resubscribeThrowing (throwsOf : Nat → Option (Exc E)) :
    List Callback → AsyncOpRunnable R E → Ended R E
  | [], s => { op := s, escaped := none }
  | g :: gs, s =>
    if s._done then
      match Callback.callThrowing throwsOf s._pOpWeak g s with
      | { op := s1, escaped := some x } => { op := s1, escaped := some x }
      | { op := s1, escaped := none } => Callback.resubscribeThrowing throwsOf gs s1
    else
      Callback.resubscribeThrowing throwsOf gs (Notifier.subscribe g s)
end

/-- The member `DoneNotifier::subscribe` with callbacks that may throw:
`if(_done) func(*_pOpWeak); else Notifier::subscribe(pResultSub, func);`; the
call of `func` stands in no handler. -/
def DoneNotifier.subscribeThrowing (throwsOf : Nat → Option (Exc E)) (func : Callback)
    (s : AsyncOpRunnable R E) : Ended R E :=
  if s._done then func.callThrowing throwsOf s._pOpWeak s
  else { op := Notifier.subscribe func s, escaped := none }

/-- How far the `run()` call of an interleaving has got: not made at all,
made but before its locked block, after the locked block (`_started` is set) and
before the `try`, after the `try`/`catch` and before `_doneNotifier.notify`, or
returned. -/
inductive RunPc where
  | notCalled
  | entry
  | body
  | notify
  | returned
  deriving DecidableEq, Repr

/-- The operation together with the calls in flight: the place of the one
`run()` call, the number of `signalStop()` calls that have not yet entered
their locked block, the number of `signalStop()` calls that have left it with
`actuallyAborted` set and have not yet called `notify`, and the callbacks of the
`subscribe` calls that have not yet been executed. -/
structure Interleaving (R E : Type) where
  op : AsyncOpRunnable R E
  run : RunPc
  stopEntry : Nat
  stopNotify : Nat
  subscribeEntry : List Callback

/-- The next atomic step of an interleaving: the next step of the `run()` call,
the locked block of a waiting `signalStop()` call, the `notify` of a
`signalStop()` call that aborted, or the `i`-th waiting `subscribe` call. -/
inductive Move where
  | run
  | stopLocked
  | stopNotify
  | subscribe (i : Nat)
  deriving DecidableEq, Repr

/-- One atomic step.  A step that no call in flight can take leaves everything
as it is. -/
def Interleaving.move (doOp : Bool → Except (Exc E) R) (c : Interleaving R E) :
    Move → Interleaving R E
  | .run =>
    match c.run with
    | .entry =>
      match c.op.runLocked with
      | none => { c with run := .returned }
      | some s1 => { c with op := s1, run := .body }
    | .body => { c with op := c.op.runDoOp doOp, run := .notify }
    | .notify => { c with op := DoneNotifier.notify c.op.thisPtr c.op, run := .returned }
    | .notCalled => c
    | .returned => c
  | .stopLocked =>
    match c.stopEntry with
    | 0 => c
    | n + 1 =>
      match c.op.signalStopLocked with
      | (s1, true) => { c with op := s1, stopEntry := n, stopNotify := c.stopNotify + 1 }
      | (s1, false) => { c with op := s1, stopEntry := n }
  | .stopNotify =>
    match c.stopNotify with
    | 0 => c
    | n + 1 => { c with op := DoneNotifier.notify c.op.thisPtr c.op, stopNotify := n }
  | .subscribe i =>
    match c.subscribeEntry[i]? with
    | none => c
    | some func =>
      { c with op := DoneNotifier.subscribe func c.op
               subscribeEntry := c.subscribeEntry.eraseIdx i }

/-- The atomic steps `moves` taken one after the other. -/
def Interleaving.play (doOp : Bool → Except (Exc E) R) (c : Interleaving R E)
    (moves : List Move) : Interleaving R E :=
  moves.foldl (Interleaving.move doOp) c

/-- A freshly constructed operation at address `addr` on which `run()` is called
once or not at all, `signalStop()` is called `stops` times and the callbacks
`funcs` are subscribed, all concurrently and none of them begun. -/
def Interleaving.start (addr : Nat) (withRun : Bool) (stops : Nat) (funcs : List Callback) :
    Interleaving R E :=
  { op := AsyncOpRunnable.construct addr
    run := if withRun then .entry else .notCalled
    stopEntry := stops
    stopNotify := 0
    subscribeEntry := funcs }

/-- Whether every call of the interleaving has returned. -/
def Interleaving.allReturned (c : Interleaving R E) : Bool :=
  (c.run == .notCalled || c.run == .returned) && c.stopEntry == 0 && c.stopNotify == 0 &&
    c.subscribeEntry.isEmpty

/-- Steps that complete every call in flight, whatever the interleaving has
done so far: the three steps of `run()`, the locked block of every waiting
`signalStop()`, the `notify` of every `signalStop()` that may have aborted, and
the waiting `subscribe` calls. -/
def Interleaving.drain (c : Interleaving R E) : List Move :=
  [Move.run, Move.run, Move.run] ++ List.replicate c.stopEntry Move.stopLocked ++
    List.replicate (c.stopNotify + c.stopEntry) Move.stopNotify ++
    List.replicate c.subscribeEntry.length (Move.subscribe 0)

/-- The stages an operation passes through when `run()` is called at most once:
untouched; aborted by a `signalStop()` that has not yet notified; aborted and
notified; started by `run()`; body executed but not yet notified; completed. -/
inductive Phase where
  | pending
  | aborting
  | aborted
  | started
  | ran
  | completed
  deriving DecidableEq, Repr

/-- The flags and ghost counters of the operation, and the number of
`signalStop()` calls between their locked block and their `notify`. -/
def Interleaving.shows (c : Interleaving R E) (abortedBeforeStart started done : Bool)
    (doOpCalls outcomeWrites notifyCalls stopNotify : Nat) : Prop :=
  c.op._abortedBeforeStart = abortedBeforeStart ∧ c.op._started = started ∧
  c.op._done = done ∧ c.op.doOpCalls = doOpCalls ∧ c.op.outcomeWrites = outcomeWrites ∧
  c.op.notifyCalls = notifyCalls ∧ c.stopNotify = stopNotify

/-- The stored outcome is what the body produced for some value of the stop
flag: its value in `_pResult` and no exception, or its exception in `_error` and
no value. -/
def AsyncOpRunnable.holdsBodyOutcome (doOp : Bool → Except (Exc E) R)
    (s : AsyncOpRunnable R E) : Prop :=
  ∃ b, (∃ v, doOp b = .ok v ∧ s._error = none ∧ s._pResult = some v) ∨
    (∃ e, doOp b = .error e ∧ s._error = some e ∧ s._pResult = none)

/-- What holds of an interleaving in each stage. -/
def Interleaving.inPhase (doOp : Bool → Except (Exc E) R) (c : Interleaving R E) : Phase → Prop
  | .pending =>
    c.shows false false false 0 0 0 0 ∧ c.op._error = none ∧ c.op._pResult = none ∧
      (c.run = .entry ∨ c.run = .notCalled)
  | .aborting =>
    c.shows true false false 0 1 0 1 ∧ c.op._error = some .AbortedError ∧ c.op._pResult = none ∧
      (c.run = .entry ∨ c.run = .notCalled ∨ c.run = .returned)
  | .aborted =>
    c.shows true false true 0 1 1 0 ∧ c.op._error = some .AbortedError ∧ c.op._pResult = none ∧
      (c.run = .entry ∨ c.run = .notCalled ∨ c.run = .returned)
  | .started =>
    c.shows false true false 0 0 0 0 ∧ c.op._error = none ∧ c.op._pResult = none ∧
      c.run = .body
  | .ran =>
    c.shows false true false 1 1 0 0 ∧ c.op.holdsBodyOutcome doOp ∧ c.run = .notify
  | .completed =>
    c.shows false true true 1 1 1 0 ∧ c.op.holdsBodyOutcome doOp ∧ c.run = .returned

/-- The stages that can follow a stage, itself included. -/
def Phase.leadsTo : Phase → Phase → Bool
  | .pending, _ => true
  | .aborting, .aborting => true
  | .aborting, .aborted => true
  | .aborted, .aborted => true
  | .started, .started => true
  | .started, .ran => true
  | .started, .completed => true
  | .ran, .ran => true
  | .ran, .completed => true
  | .completed, .completed => true
  | _, _ => false

/-- The number of atomic steps the `run()` call still has to take at most. -/
def RunPc.remaining : RunPc → Nat
  | .notCalled => 0
  | .entry => 3
  | .body => 2
  | .notify => 1
  | .returned => 0

/-- The interleaving reached from `Interleaving.start` by the atomic steps
`moves`, with `doOp` as the body. -/
def interleaved (doOp : Bool → Except (Exc E) R) (addr : Nat) (withRun : Bool) (stops : Nat)
    (funcs : List Callback) (moves : List Move) : Interleaving R E :=
  (Interleaving.start addr withRun stops funcs).play doOp moves

/-- How many `signalStop()` calls a sequence of calls contains. -/
def Call.stops : List Call → Nat
  | [] => 0
  | .signalStop :: calls => Call.stops calls + 1
  | _ :: calls => Call.stops calls

/-- The callbacks a sequence of calls subscribes, in order. -/
def Call.funcs : List Call → List Callback
  | [] => []
  | .subscribe func :: calls => func :: Call.funcs calls
  | _ :: calls => Call.funcs calls

/-- The atomic steps of a sequence of calls made one after the other, each call
returning before the next is made: the three steps of `run()`, the two of
`signalStop()`, the one of `subscribe`. -/
def Call.moves : List Call → List Move
  | [] => []
  | .run :: calls => [Move.run, Move.run, Move.run] ++ Call.moves calls
  | .signalStop :: calls => [Move.stopLocked, Move.stopNotify] ++ Call.moves calls
  | .subscribe _ :: calls => Move.subscribe 0 :: Call.moves calls

/-! ## `bdn::winuwp::WindowCore`: the bounds of the Xaml window -/

namespace winuwp

/-- The value of `std::numeric_limits<int>::max()` for the 32-bit `int`. -/
def intMax : Int := 2147483647

/-- The `bdn::Rect` of this version: four `int` members. -/
structure Rect where
  x : Int
  y : Int
  width : Int
  height : Int
  deriving DecidableEq, Repr

/-- The `bdn::Size` of this version: two `int` members. -/
structure Size where
  width : Int
  height : Int
  deriving DecidableEq, Repr

/-- What reading `_pXamlWindow->Bounds` and converting it gives: the rect that
`uwpRectToRect` returns for the reported bounds and the scale factor (that
helper is in `util.h`, not among the sources, so its result is the input), or a
`Platform::DisconnectedException`. -/
inductive XamlBounds where
  | reported (converted : Rect)
  | disconnected
  deriving DecidableEq, Repr

/-- The member `WindowCore::_getBounds`.  `emptyRect` is the default-constructed
`Rect()` of the `catch` branch; the class `Rect` is not among the sources, so
its default value is a parameter. -/
def WindowCore._getBounds (emptyRect : Rect) (xaml : XamlBounds) : Rect :=
  let bounds : Rect :=
    match xaml with
    | .reported converted => converted
    | .disconnected => emptyRect
  let bounds := if bounds.width = intMax then { bounds with width := 0 } else bounds
  let bounds := if bounds.height = intMax then { bounds with height := 0 } else bounds
  let bounds := { bounds with x := 0 }
  let bounds := { bounds with y := 0 }
  bounds

/-- The member `WindowCore::_getContentSize`:
`Rect bounds = _getBounds(); return Size(bounds.width, bounds.height);`. -/
def WindowCore._getContentSize (emptyRect : Rect) (xaml : XamlBounds) : Size :=
  let bounds := WindowCore._getBounds emptyRect xaml
  { width := bounds.width, height := bounds.height }

/-- The member `WindowCore::getContentArea`:
`Size contentSize = _getContentSize();
return Rect(0, 0, contentSize.width, contentSize.height );`. -/
def WindowCore.getContentArea (emptyRect : Rect) (xaml : XamlBounds) : Rect :=
  let contentSize := WindowCore._getContentSize emptyRect xaml
  { x := 0, y := 0, width := contentSize.width, height := contentSize.height }

/-- The rect that `_getBounds` starts from: the converted bounds, or `Rect()`
when the window is already destroyed. -/
def XamlBounds.rect (emptyRect : Rect) : XamlBounds → Rect
  | .reported converted => converted
  | .disconnected => emptyRect

end winuwp

end bdn

namespace bdn

variable {R E : Type}

/-! ## Callbacks on a notifier that has fired -/

theorem observe_with_invoked (s : AsyncOpRunnable R E) (l : List (Invocation R E)) (i op : Nat) :
    AsyncOpRunnable.observe i op { s with invoked := l } = s.observe i op := rfl

mutual
theorem call_of_done (op : Nat) : ∀ (f : Callback) (s : AsyncOpRunnable R E), s._done = true →
    f.call op s = { s with invoked := s.invoked ++ f.views op s }
  | .mk id resub, s, h => by
    rw [Callback.call,
      resubscribe_of_done resub { s with invoked := s.invoked ++ [s.observe id op] } h]
    simp [Callback.views, observe_with_invoked]
theorem resubscribe_of_done : ∀ (gs : List Callback) (s : AsyncOpRunnable R E), s._done = true →
    Callback.resubscribe gs s =
      { s with invoked := s.invoked ++ (Callback.idsList gs).map (fun i => s.observe i s._pOpWeak) }
  | [], s, _ => by simp [Callback.resubscribe, Callback.idsList]
  | g :: gs, s, h => by
    rw [Callback.resubscribe, if_pos h, call_of_done s._pOpWeak g s h,
      resubscribe_of_done gs { s with invoked := s.invoked ++ g.views s._pOpWeak s } h]
    cases g with
    | mk id resub =>
      simp [Callback.views, Callback.idsList, Callback.ids, observe_with_invoked]
end

theorem views_with_invoked (op : Nat) (s : AsyncOpRunnable R E) (l : List (Invocation R E))
    (f : Callback) : f.views op { s with invoked := l } = f.views op s := by
  cases f with
  | mk id resub => rfl

theorem views_pOpWeak (s : AsyncOpRunnable R E) (f : Callback) :
    f.views s._pOpWeak s = f.ids.map (fun i => s.observe i s._pOpWeak) := by
  cases f with
  | mk id resub => simp [Callback.views, Callback.ids]

theorem resubscribe_eq_foldl (gs : List Callback) (s : AsyncOpRunnable R E) :
    Callback.resubscribe gs s = gs.foldl (fun t g => DoneNotifier.subscribe g t) s := by
  induction gs generalizing s with
  | nil => rfl
  | cons g gs ih => rw [Callback.resubscribe, List.foldl_cons, ih]; rfl

theorem subscribe_of_done (f : Callback) (s : AsyncOpRunnable R E) (h : s._done = true) :
    DoneNotifier.subscribe f s =
      { s with invoked := s.invoked ++ f.ids.map (fun i => s.observe i s._pOpWeak) } := by
  rw [DoneNotifier.subscribe, if_pos h, call_of_done _ f s h, views_pOpWeak]

theorem subscribe_of_not_done (f : Callback) (s : AsyncOpRunnable R E) (h : s._done = false) :
    DoneNotifier.subscribe f s = { s with _subs := s._subs ++ [f] } := by
  simp [DoneNotifier.subscribe, h, Notifier.subscribe]

theorem foldl_call_of_done (op : Nat) (fs : List Callback) (s : AsyncOpRunnable R E)
    (h : s._done = true) :
    fs.foldl (fun t f => f.call op t) s =
      { s with invoked := s.invoked ++ fs.flatMap (fun f => f.views op s) } := by
  induction fs generalizing s with
  | nil => simp
  | cons f fs ih =>
    rw [List.foldl_cons, call_of_done op f s h,
      ih { s with invoked := s.invoked ++ f.views op s } h]
    simp [views_with_invoked]

theorem notify_eq (op : Nat) (s : AsyncOpRunnable R E) :
    DoneNotifier.notify op s =
      { DoneNotifier.fired s with
          invoked := s.invoked ++ s._subs.flatMap (fun f => f.views op (DoneNotifier.fired s))
          _subs := [] } := by
  rw [DoneNotifier.notify, Notifier.notify]
  rw [foldl_call_of_done op _ (DoneNotifier.fired s) rfl]
  rfl

/-! ## Closed forms of the calls -/

theorem signalStop_of_pending (s : AsyncOpRunnable R E) (h1 : s._started = false)
    (h2 : s._abortedBeforeStart = false) :
    s.signalStop = DoneNotifier.notify s.thisPtr
      { s with
          _stopSignalled := true
          _abortedBeforeStart := true
          _error := some .AbortedError
          outcomeWrites := s.outcomeWrites + 1 } := by
  simp [AsyncOpRunnable.signalStop, AsyncOpRunnable.signalStopLocked, h1, h2]

theorem signalStop_of_not_pending (s : AsyncOpRunnable R E)
    (h : s._started = true ∨ s._abortedBeforeStart = true) :
    s.signalStop = { s with _stopSignalled := true } := by
  rcases h with h | h <;>
    simp [AsyncOpRunnable.signalStop, AsyncOpRunnable.signalStopLocked, h]

theorem runDoOp_thisPtr (doOp : Bool → Except (Exc E) R) (s : AsyncOpRunnable R E) :
    (s.runDoOp doOp).thisPtr = s.thisPtr := by
  unfold AsyncOpRunnable.runDoOp
  split <;> rfl

theorem run_of_aborted (doOp : Bool → Except (Exc E) R) (s : AsyncOpRunnable R E)
    (h : s._abortedBeforeStart = true) : s.run doOp = s := by
  simp [AsyncOpRunnable.run, AsyncOpRunnable.runLocked, h]

theorem run_of_not_aborted (doOp : Bool → Except (Exc E) R) (s : AsyncOpRunnable R E)
    (h : s._abortedBeforeStart = false) :
    s.run doOp =
      DoneNotifier.notify s.thisPtr (AsyncOpRunnable.runDoOp doOp { s with _started := true }) := by
  simp [AsyncOpRunnable.run, AsyncOpRunnable.runLocked, h, runDoOp_thisPtr]

theorem exec_subscribe_of_not_done (doOp : Bool → Except (Exc E) R) (funcs : List Callback)
    (s : AsyncOpRunnable R E) (h : s._done = false) :
    s.exec doOp (funcs.map Call.subscribe) = { s with _subs := s._subs ++ funcs } := by
  induction funcs generalizing s with
  | nil => simp [AsyncOpRunnable.exec]
  | cons f fs ih =>
    have hs := ih { s with _subs := s._subs ++ [f] } h
    simp only [AsyncOpRunnable.exec, List.map_cons, List.foldl_cons, AsyncOpRunnable.step] at hs ⊢
    rw [subscribe_of_not_done f s h, hs]
    simp

/-- Case analysis on `subscribe`: the immediate call, or the pending list. -/
theorem subscribe_cases (f : Callback) (s : AsyncOpRunnable R E) (P : AsyncOpRunnable R E → Prop)
    (hsubDone : s._done = true →
      P { s with invoked := s.invoked ++ f.ids.map (fun i => s.observe i s._pOpWeak) })
    (hsubPending : s._done = false → P { s with _subs := s._subs ++ [f] }) :
    P (DoneNotifier.subscribe f s) := by
  cases hd : s._done with
  | true => rw [subscribe_of_done f s hd]; exact hsubDone hd
  | false => rw [subscribe_of_not_done f s hd]; exact hsubPending hd

/-- Case analysis on `signalStop`: only the flag, or the abort before start. -/
theorem signalStop_cases (s : AsyncOpRunnable R E) (P : AsyncOpRunnable R E → Prop)
    (hstopFlag : (s._started = true ∨ s._abortedBeforeStart = true) →
      P { s with _stopSignalled := true })
    (hstopAbort : s._started = false → s._abortedBeforeStart = false →
      P (DoneNotifier.notify s.thisPtr
          { s with
              _stopSignalled := true
              _abortedBeforeStart := true
              _error := some .AbortedError
              outcomeWrites := s.outcomeWrites + 1 })) :
    P s.signalStop := by
  cases hst : s._started with
  | true => rw [signalStop_of_not_pending s (Or.inl hst)]; exact hstopFlag (Or.inl hst)
  | false =>
    cases hab : s._abortedBeforeStart with
    | true => rw [signalStop_of_not_pending s (Or.inr hab)]; exact hstopFlag (Or.inr hab)
    | false => rw [signalStop_of_pending s hst hab]; exact hstopAbort hst hab

/-- Case analysis on `run`: the early return, a body that returns, a body that
throws. -/
theorem run_cases (doOp : Bool → Except (Exc E) R) (s : AsyncOpRunnable R E)
    (P : AsyncOpRunnable R E → Prop)
    (hrunSkip : s._abortedBeforeStart = true → P s)
    (hrunValue : ∀ v : R, doOp s._stopSignalled = .ok v → s._abortedBeforeStart = false →
      P (DoneNotifier.notify s.thisPtr
          { s with
              _started := true
              _pResult := some v
              doOpCalls := s.doOpCalls + 1
              outcomeWrites := s.outcomeWrites + 1 }))
    (hrunError : ∀ e : Exc E, doOp s._stopSignalled = .error e → s._abortedBeforeStart = false →
      P (DoneNotifier.notify s.thisPtr
          { s with
              _started := true
              _error := some e
              doOpCalls := s.doOpCalls + 1
              outcomeWrites := s.outcomeWrites + 1 })) :
    P (s.run doOp) := by
  cases hab : s._abortedBeforeStart with
  | true => rw [run_of_aborted doOp s hab]; exact hrunSkip hab
  | false =>
    rw [run_of_not_aborted doOp s hab]
    cases hd : doOp s._stopSignalled with
    | ok v =>
      have := hrunValue v hd hab
      simpa [AsyncOpRunnable.runDoOp, AsyncOpRunnable.isStopSignalled, hd] using this
    | error e =>
      have := hrunError e hd hab
      simpa [AsyncOpRunnable.runDoOp, AsyncOpRunnable.isStopSignalled, hd] using this

/-- Case analysis on one completed call: a property holds after the call as
soon as it holds for the result of each branch the source can take. -/
theorem step_cases (doOp : Bool → Except (Exc E) R) (s : AsyncOpRunnable R E) (c : Call)
    (P : AsyncOpRunnable R E → Prop)
    (hsubDone : ∀ f : Callback, s._done = true →
      P { s with invoked := s.invoked ++ f.ids.map (fun i => s.observe i s._pOpWeak) })
    (hsubPending : ∀ f : Callback, s._done = false → P { s with _subs := s._subs ++ [f] })
    (hstopFlag : (s._started = true ∨ s._abortedBeforeStart = true) →
      P { s with _stopSignalled := true })
    (hstopAbort : s._started = false → s._abortedBeforeStart = false →
      P (DoneNotifier.notify s.thisPtr
          { s with
              _stopSignalled := true
              _abortedBeforeStart := true
              _error := some .AbortedError
              outcomeWrites := s.outcomeWrites + 1 }))
    (hrunSkip : s._abortedBeforeStart = true → P s)
    (hrunValue : ∀ v : R, doOp s._stopSignalled = .ok v → s._abortedBeforeStart = false →
      P (DoneNotifier.notify s.thisPtr
          { s with
              _started := true
              _pResult := some v
              doOpCalls := s.doOpCalls + 1
              outcomeWrites := s.outcomeWrites + 1 }))
    (hrunError : ∀ e : Exc E, doOp s._stopSignalled = .error e → s._abortedBeforeStart = false →
      P (DoneNotifier.notify s.thisPtr
          { s with
              _started := true
              _error := some e
              doOpCalls := s.doOpCalls + 1
              outcomeWrites := s.outcomeWrites + 1 })) :
    P (s.step doOp c) := by
  cases c with
  | run => exact run_cases doOp s P hrunSkip hrunValue hrunError
  | signalStop => exact signalStop_cases s P hstopFlag hstopAbort
  | subscribe f => exact subscribe_cases f s P (hsubDone f) (hsubPending f)

theorem exec_append (doOp : Bool → Except (Exc E) R) (s : AsyncOpRunnable R E)
    (calls more : List Call) :
    s.exec doOp (calls ++ more) = (s.exec doOp calls).exec doOp more := by
  simp [AsyncOpRunnable.exec, List.foldl_append]

theorem exec_concat (doOp : Bool → Except (Exc E) R) (s : AsyncOpRunnable R E)
    (calls : List Call) (c : Call) :
    s.exec doOp (calls ++ [c]) = (s.exec doOp calls).step doOp c := by
  simp [AsyncOpRunnable.exec, List.foldl_append]

theorem reached_subscribe (doOp : Bool → Except (Exc E) R) (addr : Nat) (funcs : List Callback) :
    reached doOp addr (funcs.map Call.subscribe) =
      { (AsyncOpRunnable.construct addr : AsyncOpRunnable R E) with _subs := funcs } := by
  rw [reached, exec_subscribe_of_not_done doOp funcs _ rfl]
  rfl

theorem reached_append (doOp : Bool → Except (Exc E) R) (addr : Nat) (calls more : List Call) :
    reached doOp addr (calls ++ more) = (reached doOp addr calls).exec doOp more :=
  exec_append doOp _ calls more

theorem reached_concat (doOp : Bool → Except (Exc E) R) (addr : Nat) (calls : List Call)
    (c : Call) : reached doOp addr (calls ++ [c]) = (reached doOp addr calls).step doOp c :=
  exec_concat doOp _ calls c

/-- A property that holds in a state and is kept by every completed call holds
after every sequence of completed calls. -/
theorem exec_induction (doOp : Bool → Except (Exc E) R) (P : AsyncOpRunnable R E → Prop)
    (hstep : ∀ s c, P s → P (s.step doOp c)) (s : AsyncOpRunnable R E) (h : P s)
    (calls : List Call) : P (s.exec doOp calls) := by
  induction calls generalizing s with
  | nil => exact h
  | cons c cs ih => exact ih (s.step doOp c) (hstep s c h)

theorem settled_construct (addr : Nat) :
    Settled (AsyncOpRunnable.construct addr : AsyncOpRunnable R E) := by
  constructor <;> simp [AsyncOpRunnable.construct]

theorem settled_step (doOp : Bool → Except (Exc E) R) (s : AsyncOpRunnable R E) (c : Call)
    (h : Settled s) : Settled (s.step doOp c) := by
  obtain ⟨h1, h2, h3, h4, h5, h6⟩ := h
  apply step_cases doOp s c
  · intro f hd
    exact ⟨h1, h2, h3, h4, h5, h6⟩
  · intro f hd
    exact ⟨h1, h2, h3, h4, by simp [hd], h6⟩
  · intro hs
    exact ⟨h1, h2, h3, h4, h5, h6⟩
  · intro hs ha
    rw [notify_eq]
    constructor <;> simp_all [DoneNotifier.fired]
  · intro ha
    exact ⟨h1, h2, h3, h4, h5, h6⟩
  · intro v hv ha
    rw [notify_eq]
    constructor <;> simp_all [DoneNotifier.fired]
  · intro e he ha
    rw [notify_eq]
    constructor <;> simp_all [DoneNotifier.fired]

theorem settled_exec (doOp : Bool → Except (Exc E) R) (addr : Nat) (calls : List Call) :
    Settled (reached doOp addr calls) :=
  exec_induction doOp Settled (settled_step doOp) _ (settled_construct addr) calls

/-! ## Delivery of callbacks -/

theorem idsList_append (fs gs : List Callback) :
    Callback.idsList (fs ++ gs) = Callback.idsList fs ++ Callback.idsList gs := by
  induction fs with
  | nil => simp [Callback.idsList]
  | cons f fs ih => simp [Callback.idsList, ih]

theorem idsList_singleton (f : Callback) : Callback.idsList [f] = f.ids := by
  simp [Callback.idsList]

theorem views_func (op : Nat) (s : AsyncOpRunnable R E) (f : Callback) :
    (f.views op s).map (fun i => i.func) = f.ids := by
  cases f with
  | mk id resub =>
    simp [Callback.views, Callback.ids, AsyncOpRunnable.observe, Function.comp_def]

theorem flatMap_views_func (op : Nat) (s : AsyncOpRunnable R E) (fs : List Callback) :
    (fs.flatMap (fun f => f.views op s)).map (fun i => i.func) = Callback.idsList fs := by
  induction fs with
  | nil => simp [Callback.idsList]
  | cons f fs ih =>
    rw [List.flatMap_cons, List.map_append, ih, views_func]
    simp [Callback.idsList]

theorem delivered_notify (op : Nat) (ids : List Nat) (s : AsyncOpRunnable R E)
    (h : Delivered ids s) : Delivered ids (DoneNotifier.notify op s) := by
  rw [notify_eq]
  refine ⟨fun hd => by simp [DoneNotifier.fired] at hd, fun _ => ⟨?_, rfl⟩⟩
  show (s.invoked ++ _).map (fun i => i.func) = ids
  rw [List.map_append, flatMap_views_func]
  cases hd : s._done with
  | false =>
    obtain ⟨h1, h2⟩ := h.pending hd
    simp [h1, h2]
  | true =>
    obtain ⟨h1, h2⟩ := h.fired hd
    simp [h1, h2, Callback.idsList]

theorem delivered_runDoOp (doOp : Bool → Except (Exc E) R) (ids : List Nat)
    (s : AsyncOpRunnable R E) (h : Delivered ids s) :
    Delivered ids (AsyncOpRunnable.runDoOp doOp { s with _started := true }) := by
  unfold AsyncOpRunnable.runDoOp
  split <;> exact ⟨h.pending, h.fired⟩

theorem delivered_step (doOp : Bool → Except (Exc E) R) (ids : List Nat)
    (s : AsyncOpRunnable R E) (c : Call) (h : Delivered ids s) :
    Delivered (ids ++ c.ids) (s.step doOp c) := by
  cases c with
  | run =>
    show Delivered (ids ++ Call.ids Call.run) (s.run doOp)
    simp only [Call.ids, List.append_nil]
    cases hab : s._abortedBeforeStart with
    | true => rw [run_of_aborted doOp s hab]; exact h
    | false =>
      rw [run_of_not_aborted doOp s hab]
      exact delivered_notify _ ids _ (delivered_runDoOp doOp ids s h)
  | signalStop =>
    show Delivered (ids ++ Call.ids Call.signalStop) s.signalStop
    simp only [Call.ids, List.append_nil]
    by_cases hp : s._started = true ∨ s._abortedBeforeStart = true
    · rw [signalStop_of_not_pending s hp]
      exact ⟨h.pending, h.fired⟩
    · have h1 : s._started = false := by
        cases hs : s._started with
        | false => rfl
        | true => exact absurd (Or.inl hs) hp
      have h2 : s._abortedBeforeStart = false := by
        cases hs : s._abortedBeforeStart with
        | false => rfl
        | true => exact absurd (Or.inr hs) hp
      rw [signalStop_of_pending s h1 h2]
      exact delivered_notify _ ids _ ⟨h.pending, h.fired⟩
  | subscribe f =>
    show Delivered (ids ++ f.ids) (DoneNotifier.subscribe f s)
    cases hd : s._done with
    | true =>
      rw [subscribe_of_done f s hd]
      obtain ⟨h1, h2⟩ := h.fired hd
      refine ⟨fun hd2 => ?_, fun _ => ⟨?_, h2⟩⟩
      · have hd3 : s._done = false := hd2
        rw [hd] at hd3
        cases hd3
      · show (s.invoked ++ _).map (fun i => i.func) = ids ++ f.ids
        rw [List.map_append, h1]
        simp [AsyncOpRunnable.observe, Function.comp_def]
    | false =>
      rw [subscribe_of_not_done f s hd]
      obtain ⟨h1, h2⟩ := h.pending hd
      refine ⟨fun _ => ⟨h1, ?_⟩, fun hd2 => ?_⟩
      · show Callback.idsList (s._subs ++ [f]) = ids ++ f.ids
        rw [idsList_append, idsList_singleton, h2]
      · have hd3 : s._done = true := hd2
        rw [hd] at hd3
        cases hd3

theorem delivered_exec (doOp : Bool → Except (Exc E) R) (addr : Nat) (calls : List Call) :
    Delivered (Call.subscribed calls)
      (reached doOp addr calls) := by
  induction calls using List.reverseRecOn with
  | nil =>
    exact ⟨fun _ => ⟨rfl, rfl⟩,
      fun hd => by simp [reached, AsyncOpRunnable.exec, AsyncOpRunnable.construct] at hd⟩
  | append_singleton cs c ih =>
    rw [reached_concat]
    have := delivered_step doOp _ _ c ih
    simpa [Call.subscribed] using this

theorem flatMap_views_eq (op : Nat) (s : AsyncOpRunnable R E) (fs : List Callback)
    (h : s._pOpWeak = op) :
    fs.flatMap (fun f => f.views op s) = (Callback.idsList fs).map (fun i => s.observe i op) := by
  subst h
  induction fs with
  | nil => simp [Callback.idsList]
  | cons f fs ih =>
    rw [List.flatMap_cons, ih, views_pOpWeak]
    simp [Callback.idsList]

theorem thisPtr_step (doOp : Bool → Except (Exc E) R) (s : AsyncOpRunnable R E) (c : Call) :
    (s.step doOp c).thisPtr = s.thisPtr := by
  refine step_cases doOp s c (fun t => t.thisPtr = s.thisPtr) ?_ ?_ ?_ ?_ ?_ ?_ ?_
  · intro _ _; rfl
  · intro _ _; rfl
  · intro _; rfl
  · intro _ _; rw [notify_eq]; rfl
  · intro _; rfl
  · intro _ _ _; rw [notify_eq]; rfl
  · intro _ _ _; rw [notify_eq]; rfl

theorem thisPtr_exec (doOp : Bool → Except (Exc E) R) (addr : Nat) (calls : List Call) :
    (reached doOp addr calls).thisPtr = addr :=
  exec_induction doOp (fun s => s.thisPtr = addr)
    (fun s c h => (thisPtr_step doOp s c).trans h) _ rfl calls

/-! ## Flags and lifecycle -/

theorem flags_kept_step (doOp : Bool → Except (Exc E) R) (s : AsyncOpRunnable R E) (c : Call) :
    (s._started = true → (s.step doOp c)._started = true) ∧
    (s._abortedBeforeStart = true → (s.step doOp c)._abortedBeforeStart = true) ∧
    (s._done = true → (s.step doOp c)._done = true) := by
  refine step_cases doOp s c
    (fun t => (s._started = true → t._started = true) ∧
      (s._abortedBeforeStart = true → t._abortedBeforeStart = true) ∧
      (s._done = true → t._done = true)) ?_ ?_ ?_ ?_ ?_ ?_ ?_
  · intro _ _; exact ⟨id, id, id⟩
  · intro _ _; exact ⟨id, id, id⟩
  · intro _; exact ⟨id, id, id⟩
  · intro _ _; rw [notify_eq]; exact ⟨id, fun _ => rfl, fun _ => rfl⟩
  · intro _; exact ⟨id, id, id⟩
  · intro _ _ _; rw [notify_eq]; exact ⟨fun _ => rfl, id, fun _ => rfl⟩
  · intro _ _ _; rw [notify_eq]; exact ⟨fun _ => rfl, id, fun _ => rfl⟩

theorem flags_kept_exec (doOp : Bool → Except (Exc E) R) (more : List Call)
    (s : AsyncOpRunnable R E) :
    (s._started = true → (s.exec doOp more)._started = true) ∧
    (s._abortedBeforeStart = true → (s.exec doOp more)._abortedBeforeStart = true) ∧
    (s._done = true → (s.exec doOp more)._done = true) := by
  induction more generalizing s with
  | nil => exact ⟨id, id, id⟩
  | cons c cs ih =>
    obtain ⟨a1, a2, a3⟩ := flags_kept_step doOp s c
    obtain ⟨b1, b2, b3⟩ := ih (s.step doOp c)
    exact ⟨fun h => b1 (a1 h), fun h => b2 (a2 h), fun h => b3 (a3 h)⟩

theorem doOpCalls_step (doOp : Bool → Except (Exc E) R) (s : AsyncOpRunnable R E) (c : Call) :
    (s.step doOp c).doOpCalls = s.doOpCalls ∨
      (c.isRun = true ∧ s._abortedBeforeStart = false ∧
        (s.step doOp c).doOpCalls = s.doOpCalls + 1) := by
  cases c with
  | run =>
    show (s.run doOp).doOpCalls = s.doOpCalls ∨ _
    cases hab : s._abortedBeforeStart with
    | true => rw [run_of_aborted doOp s hab]; exact Or.inl rfl
    | false =>
      refine Or.inr ⟨rfl, rfl, ?_⟩
      show (s.run doOp).doOpCalls = s.doOpCalls + 1
      rw [run_of_not_aborted doOp s hab, notify_eq]
      unfold AsyncOpRunnable.runDoOp
      split <;> rfl
  | signalStop =>
    refine Or.inl (signalStop_cases s (fun t => t.doOpCalls = s.doOpCalls) (fun _ => rfl) ?_)
    intro _ _
    rw [notify_eq]
    rfl
  | subscribe f =>
    exact Or.inl (subscribe_cases f s (fun t => t.doOpCalls = s.doOpCalls)
      (fun _ => rfl) (fun _ => rfl))

theorem state_runDoOp (doOp : Bool → Except (Exc E) R) (s : AsyncOpRunnable R E) :
    (s.runDoOp doOp).state = s.state := by
  cases h : doOp s.isStopSignalled <;> simp [AsyncOpRunnable.runDoOp, AsyncOpRunnable.state, h]

theorem state_of_settled (s : AsyncOpRunnable R E) (h : Settled s) :
    s.state = (if s._abortedBeforeStart then Lifecycle.AbortedBeforeStart
      else if s._started then Lifecycle.Completed else Lifecycle.Pending) := by
  unfold AsyncOpRunnable.state
  cases ha : s._abortedBeforeStart with
  | true => rfl
  | false =>
    cases hs : s._started with
    | false => rfl
    | true =>
      have : s._done = true := h.done_iff.2 (Or.inr (h.started_iff.1 hs))
      simp [this]

theorem state_notify (op : Nat) (s : AsyncOpRunnable R E) :
    (DoneNotifier.notify op s).state =
      (if s._abortedBeforeStart then Lifecycle.AbortedBeforeStart
        else if s._started then Lifecycle.Completed else Lifecycle.Pending) := by
  rw [notify_eq]
  simp [AsyncOpRunnable.state, DoneNotifier.fired]

/-- The moves of the lifecycle under one completed call, from a state reached by
completed calls. -/
theorem state_step (doOp : Bool → Except (Exc E) R) (s : AsyncOpRunnable R E) (c : Call)
    (h : Settled s) :
    (s.step doOp c).state = s.state ∨
    (s.state = .Pending ∧ (s.step doOp c).state = .AbortedBeforeStart) ∨
    (s.state = .Pending ∧ (s.step doOp c).state = .Completed ∧
      ∃ s1, s.runLocked = some s1 ∧ s1.state = .Started ∧
        (s1.runDoOp doOp).state = .Started ∧
        s.step doOp c = DoneNotifier.notify s1.thisPtr (s1.runDoOp doOp)) := by
  have hst := state_of_settled s h
  cases c with
  | subscribe f =>
    exact Or.inl (subscribe_cases f s (fun t => t.state = s.state) (fun _ => rfl) (fun _ => rfl))
  | signalStop =>
    show s.signalStop.state = s.state ∨ (s.state = .Pending ∧ s.signalStop.state = _) ∨
      (s.state = .Pending ∧ s.signalStop.state = .Completed ∧
        ∃ s1, s.runLocked = some s1 ∧ s1.state = .Started ∧
          (s1.runDoOp doOp).state = .Started ∧
          s.signalStop = DoneNotifier.notify s1.thisPtr (s1.runDoOp doOp))
    cases hs : s._started with
    | true => rw [signalStop_of_not_pending s (Or.inl hs)]; exact Or.inl rfl
    | false =>
      cases ha : s._abortedBeforeStart with
      | true => rw [signalStop_of_not_pending s (Or.inr ha)]; exact Or.inl rfl
      | false =>
        refine Or.inr (Or.inl ⟨by simp [hst, hs, ha], ?_⟩)
        rw [signalStop_of_pending s hs ha, state_notify]
        rfl
  | run =>
    show (s.run doOp).state = s.state ∨ (s.state = .Pending ∧ (s.run doOp).state = _) ∨
      (s.state = .Pending ∧ (s.run doOp).state = .Completed ∧
        ∃ s1, s.runLocked = some s1 ∧ s1.state = .Started ∧
          (s1.runDoOp doOp).state = .Started ∧
          s.run doOp = DoneNotifier.notify s1.thisPtr (s1.runDoOp doOp))
    cases ha : s._abortedBeforeStart with
    | true => rw [run_of_aborted doOp s ha]; exact Or.inl rfl
    | false =>
      have hr : (s.run doOp).state = .Completed := by
        have h1 := state_notify s.thisPtr (AsyncOpRunnable.runDoOp doOp { s with _started := true })
        have h2 := state_runDoOp doOp { s with _started := true }
        rw [run_of_not_aborted doOp s ha, h1]
        cases hb : doOp s._stopSignalled <;>
          simp [AsyncOpRunnable.runDoOp, AsyncOpRunnable.isStopSignalled, hb, ha]
      cases hs : s._started with
      | true => exact Or.inl (by rw [hr, hst]; simp [ha, hs])
      | false =>
        have hd : s._done = false := by
          cases hd : s._done with
          | false => rfl
          | true =>
            rcases h.done_iff.1 hd with h1 | h1
            · rw [ha] at h1; cases h1
            · have := h.started_iff.2 h1
              rw [hs] at this; cases this
        refine Or.inr (Or.inr ⟨by simp [hst, hs, ha], hr, { s with _started := true }, ?_, ?_, ?_, ?_⟩)
        · simp [AsyncOpRunnable.runLocked, ha]
        · simp [AsyncOpRunnable.state, ha, hd]
        · rw [state_runDoOp]
          simp [AsyncOpRunnable.state, ha, hd]
        · rw [run_of_not_aborted doOp s ha]

/-! ## The claims -/

/-- C1. On an operation on which `signalStop()` is never called (a freshly
constructed one, with any callbacks subscribed), and a body that returns `v`:
`isDone()` is false before `run()`, and after one `run()` `isDone()` is true and
`getResult()` returns `v`. -/
theorem run_then_getResult_returns_value (doOp : Bool → Except (Exc E) R) (v : R) (addr : Nat)
    (funcs : List Callback) (h : doOp false = .ok v) :
    (reached doOp addr (funcs.map Call.subscribe)).isDone = false ∧
    ((reached doOp addr (funcs.map Call.subscribe)).run doOp).isDone = true ∧
    ((reached doOp addr (funcs.map Call.subscribe)).run doOp).getResult = .value v := by
  rw [reached_subscribe]
  refine ⟨rfl, ?_, ?_⟩
  · rw [run_of_not_aborted _ _ rfl, notify_eq]
    rfl
  · rw [run_of_not_aborted _ _ rfl, notify_eq]
    simp [AsyncOpRunnable.getResult, AsyncOpRunnable.isDone, DoneNotifier.isDone,
      DoneNotifier.fired, AsyncOpRunnable.runDoOp, AsyncOpRunnable.isStopSignalled,
      AsyncOpRunnable.construct, h]

/-- Scenario A: a body returning 42, `run`, then `getResult()` gives 42. -/
theorem run_then_getResult_returns_value_witness :
    (fun _ => Except.ok 42 : Bool → Except (Exc Unit) Nat) false = .ok 42 ∧
    ((AsyncOpRunnable.construct 0 : AsyncOpRunnable Nat Unit).run (fun _ => .ok 42)).getResult
      = .value 42 :=
  ⟨rfl, (run_then_getResult_returns_value (fun _ => .ok 42) 42 0 [] rfl).2.2⟩

/-- C2. On a freshly constructed operation (with any callbacks subscribed) and
for every body: `signalStop()` makes `isDone()` true at once; a following `run()`
changes no state, so `doOp` is not invoked (its call counter stays 0); and
`getResult()` then throws `AbortedError`. -/
theorem signalStop_before_run_aborts (doOp : Bool → Except (Exc E) R) (addr : Nat)
    (funcs : List Callback) :
    ((reached doOp addr (funcs.map Call.subscribe)).signalStop).isDone = true ∧
    ((reached doOp addr (funcs.map Call.subscribe)).signalStop).run doOp =
      (reached doOp addr (funcs.map Call.subscribe)).signalStop ∧
    (((reached doOp addr (funcs.map Call.subscribe)).signalStop).run doOp).doOpCalls = 0 ∧
    (((reached doOp addr (funcs.map Call.subscribe)).signalStop).run doOp).getResult
      = .thrown .AbortedError := by
  rw [reached_subscribe, signalStop_of_pending _ rfl rfl, notify_eq,
    run_of_aborted _ _ rfl]
  exact ⟨rfl, rfl, rfl, rfl⟩

/-- Scenario B: a body that would return 7, `signalStop()` then `run()`: the body
is not executed and `getResult()` throws `AbortedError`. -/
theorem signalStop_before_run_aborts_scenario :
    (((AsyncOpRunnable.construct 0 : AsyncOpRunnable Nat Unit).signalStop).run
        (fun _ => .ok 7)).doOpCalls = 0 ∧
    (((AsyncOpRunnable.construct 0 : AsyncOpRunnable Nat Unit).signalStop).run
        (fun _ => .ok 7)).getResult = .thrown .AbortedError := by
  decide

/-- What a body failure `e` stored by `run` leaves behind: the operation is
started and done and holds `e`. -/
theorem failure_kept_by_step (doOp : Bool → Except (Exc E) R) (e : Exc E)
    (s : AsyncOpRunnable R E) (c : Call) (hc : c.isRun = false)
    (h : s._started = true ∧ s._done = true ∧ s._error = some e) :
    (s.step doOp c)._started = true ∧ (s.step doOp c)._done = true ∧
      (s.step doOp c)._error = some e := by
  obtain ⟨h1, h2, h3⟩ := h
  cases c with
  | run => simp [Call.isRun] at hc
  | signalStop =>
    show s.signalStop._started = true ∧ s.signalStop._done = true ∧ s.signalStop._error = some e
    rw [signalStop_of_not_pending s (Or.inl h1)]
    exact ⟨h1, h2, h3⟩
  | subscribe f =>
    show (DoneNotifier.subscribe f s)._started = true ∧ (DoneNotifier.subscribe f s)._done = true ∧
      (DoneNotifier.subscribe f s)._error = some e
    rw [subscribe_of_done f s h2]
    exact ⟨h1, h2, h3⟩

theorem failure_kept_by_exec (doOp : Bool → Except (Exc E) R) (e : Exc E) (later : List Call)
    (s : AsyncOpRunnable R E) (hl : Call.runs later = 0)
    (h : s._started = true ∧ s._done = true ∧ s._error = some e) :
    (s.exec doOp later)._started = true ∧ (s.exec doOp later)._done = true ∧
      (s.exec doOp later)._error = some e := by
  induction later generalizing s with
  | nil => exact h
  | cons c cs ih =>
    have hc : c.isRun = false := by
      cases hr : c.isRun with
      | false => rfl
      | true => simp [Call.runs, List.countP_cons, hr] at hl
    have hcs : Call.runs cs = 0 := by
      simpa [Call.runs, List.countP_cons, hc] using hl
    exact ih (s.step doOp c) hcs (failure_kept_by_step doOp e s c hc h)

/-- C3. When the body fails with `e` on an operation that was not aborted before
start, `run()` stores exactly `e` and makes `isDone()` true, and `getResult()`
throws exactly `e`, immediately and after any further `signalStop` and
`subscribe` calls, however often it is asked. -/
theorem run_stores_body_failure (doOp : Bool → Except (Exc E) R) (e : Exc E)
    (s : AsyncOpRunnable R E) (later : List Call)
    (hab : s._abortedBeforeStart = false) (hbody : doOp s.isStopSignalled = .error e)
    (hlater : Call.runs later = 0) :
    (s.run doOp)._error = some e ∧ (s.run doOp).isDone = true ∧
    (s.run doOp).getResult = .thrown e ∧
    ((s.run doOp).exec doOp later).isDone = true ∧
    ((s.run doOp).exec doOp later).getResult = .thrown e := by
  have hrun : (s.run doOp)._started = true ∧ (s.run doOp)._done = true ∧
      (s.run doOp)._error = some e := by
    rw [run_of_not_aborted doOp s hab, notify_eq]
    simp only [AsyncOpRunnable.isStopSignalled] at hbody
    simp [DoneNotifier.fired, AsyncOpRunnable.runDoOp, AsyncOpRunnable.isStopSignalled, hbody]
  have hlat := failure_kept_by_exec doOp e later (s.run doOp) hlater hrun
  refine ⟨hrun.2.2, hrun.2.1, ?_, hlat.2.1, ?_⟩
  · simp [AsyncOpRunnable.getResult, AsyncOpRunnable.isDone, DoneNotifier.isDone, hrun.2.1,
      hrun.2.2]
  · simp [AsyncOpRunnable.getResult, AsyncOpRunnable.isDone, DoneNotifier.isDone, hlat.2.1,
      hlat.2.2]

/-- A body throwing the exception `3` on a fresh operation: `getResult()` throws
it after `run()`, and still after `signalStop()` and a late subscription. -/
theorem run_stores_body_failure_witness :
    (AsyncOpRunnable.construct 0 : AsyncOpRunnable Unit Nat)._abortedBeforeStart = false ∧
    (fun _ => Except.error (Exc.other 3) : Bool → Except (Exc Nat) Unit) false
      = .error (.other 3) ∧
    Call.runs [Call.signalStop, Call.subscribe (.mk 1 [])] = 0 ∧
    ((AsyncOpRunnable.construct 0 : AsyncOpRunnable Unit Nat).run
        (fun _ => .error (.other 3))).getResult = .thrown (.other 3) ∧
    (((AsyncOpRunnable.construct 0 : AsyncOpRunnable Unit Nat).run
        (fun _ => .error (.other 3))).exec (fun _ => .error (.other 3))
        [Call.signalStop, Call.subscribe (.mk 1 [])]).getResult = .thrown (.other 3) :=
  have h := run_stores_body_failure (fun _ => Except.error (Exc.other 3)) (Exc.other 3)
    (AsyncOpRunnable.construct 0 : AsyncOpRunnable Unit Nat)
    [Call.signalStop, Call.subscribe (.mk 1 [])] rfl rfl (by decide)
  ⟨rfl, rfl, by decide, h.2.2.1, h.2.2.2.2⟩

/-- The stored exception of a state reached from a fresh operation is
`AbortedError` from `signalStop` or an exception thrown by the body. -/
theorem error_origin_step (doOp : Bool → Except (Exc E) R) (s : AsyncOpRunnable R E) (c : Call)
    (h : ∀ e, s._error = some e → e = .AbortedError ∨ ∃ b, doOp b = .error e) :
    ∀ e, (s.step doOp c)._error = some e → e = .AbortedError ∨ ∃ b, doOp b = .error e := by
  refine step_cases doOp s c
    (fun t => ∀ e, t._error = some e → e = .AbortedError ∨ ∃ b, doOp b = .error e)
    ?_ ?_ ?_ ?_ ?_ ?_ ?_
  · intro f _; exact h
  · intro f _; exact h
  · intro _; exact h
  · intro _ _ e he
    rw [notify_eq] at he
    simp only [DoneNotifier.fired, Option.some.injEq] at he
    exact Or.inl he.symm
  · intro _; exact h
  · intro v _ _ e he
    rw [notify_eq] at he
    exact h e he
  · intro e' hb _ e he
    rw [notify_eq] at he
    simp only [DoneNotifier.fired, Option.some.injEq] at he
    exact Or.inr ⟨s._stopSignalled, he ▸ hb⟩

theorem error_origin_exec (doOp : Bool → Except (Exc E) R) (addr : Nat) (calls : List Call) :
    ∀ e, (reached doOp addr calls)._error = some e →
      e = .AbortedError ∨ ∃ b, doOp b = .error e :=
  exec_induction doOp (fun s => ∀ e, s._error = some e → e = .AbortedError ∨ ∃ b, doOp b = .error e)
    (error_origin_step doOp) _ (by simp [AsyncOpRunnable.construct]) calls

/-- C4, as stated, fails.  A body that throws `UnfinishedError` (for instance
by asking another, unfinished operation for its result): after `run()` the
operation is done, and `getResult()` throws `UnfinishedError` all the same,
because `run` stores whatever the body throws and `getResult` rethrows it. -/
theorem getResult_unfinished_when_done :
    ((AsyncOpRunnable.construct 0 : AsyncOpRunnable Nat Unit).run
        (fun _ => .error .UnfinishedError)).isDone = true ∧
    ((AsyncOpRunnable.construct 0 : AsyncOpRunnable Nat Unit).run
        (fun _ => .error .UnfinishedError)).getResult = .thrown .UnfinishedError ∧
    ¬ (((AsyncOpRunnable.construct 0 : AsyncOpRunnable Nat Unit).run
        (fun _ => .error .UnfinishedError)).getResult = .thrown .UnfinishedError ↔
      ((AsyncOpRunnable.construct 0 : AsyncOpRunnable Nat Unit).run
        (fun _ => .error .UnfinishedError)).isDone = false) := by
  decide

/-- C4, amended.  `getResult()` throws `UnfinishedError` whenever the operation
is not done: in the freshly constructed (Pending) state, and in the two states
inside `run()` before the notification (after the locked block, and after
`doOp`).  Once `isDone()` is true it throws `UnfinishedError` exactly when the
stored exception is itself an `UnfinishedError`, and in a state reached by
completed calls from a fresh operation only the body can have stored that one.
`getResult` is a function of the state alone: it has no state to change. -/
theorem getResult_unfinished_iff (doOp : Bool → Except (Exc E) R) (s : AsyncOpRunnable R E)
    (addr : Nat) (calls : List Call) :
    (s.getResult = .thrown .UnfinishedError ↔
      (s.isDone = false ∨ s._error = some .UnfinishedError)) ∧
    (AsyncOpRunnable.construct addr : AsyncOpRunnable R E).getResult = .thrown .UnfinishedError ∧
    (∀ s1, s.isDone = false → s.runLocked = some s1 →
      s1.isDone = false ∧ s1.getResult = .thrown .UnfinishedError ∧
      (s1.runDoOp doOp).isDone = false ∧
      (s1.runDoOp doOp).getResult = .thrown .UnfinishedError) ∧
    ((reached doOp addr calls).isDone = true →
      (reached doOp addr calls).getResult = .thrown .UnfinishedError →
      ∃ b, doOp b = .error .UnfinishedError) := by
  have key : ∀ t : AsyncOpRunnable R E, t.getResult = .thrown .UnfinishedError ↔
      (t.isDone = false ∨ t._error = some .UnfinishedError) := by
    intro t
    unfold AsyncOpRunnable.getResult
    cases hd : t.isDone
    · simp
    · cases he : t._error with
      | some e => simp
      | none => cases hp : t._pResult <;> simp
  refine ⟨key s, rfl, ?_, ?_⟩
  · intro s1 hd hl
    have h1 : s1 = { s with _started := true } := by
      unfold AsyncOpRunnable.runLocked at hl
      split at hl
      · cases hl
      · exact (Option.some.inj hl).symm
    have hd1 : s1.isDone = false := by rw [h1]; exact hd
    have hd2 : (s1.runDoOp doOp).isDone = false := by
      unfold AsyncOpRunnable.runDoOp
      split <;> exact hd1
    exact ⟨hd1, (key s1).2 (Or.inl hd1), hd2, (key _).2 (Or.inl hd2)⟩
  · intro hd hg
    rcases (key _).1 hg with h | h
    · rw [hd] at h; cases h
    · rcases error_origin_exec doOp addr calls _ h with h' | h'
      · cases h'
      · exact h'

/-- C5. After every sequence of completed `subscribe`, `signalStop` and `run`
calls on a fresh operation with at most one `run`: while the operation is not
done no callback has been invoked, and once it is done every callback has been
invoked exactly as often as it has been subscribed so far, once for each
subscription, whether the operation finished through `run()` or through
`signalStop()`, and whether the subscription came before or after that. -/
theorem callbacks_invoked_once_per_subscription (doOp : Bool → Except (Exc E) R) (addr : Nat)
    (calls : List Call) (c : Nat) (_hrun : Call.runs calls ≤ 1) :
    (reached doOp addr calls).invocations c =
      if (reached doOp addr calls).isDone then (Call.subscribed calls).count c else 0 := by
  have h := delivered_exec (R := R) (E := E) doOp addr calls
  unfold AsyncOpRunnable.invocations AsyncOpRunnable.isDone DoneNotifier.isDone
  cases hd : (reached doOp addr calls)._done with
  | false => simp [(h.pending hd).1]
  | true =>
    rw [← (h.fired hd).1, List.count, List.countP_map]
    simp [Function.comp_def]

/-- A callback subscribed before `run`, `run`, then a tree-shaped late subscriber:
callback 1 has been invoked once, and so has callback 3, which callback 2
subscribes from inside its own invocation. -/
theorem callbacks_invoked_once_per_subscription_witness :
    Call.runs [Call.subscribe (.mk 1 []), Call.run, Call.subscribe (.mk 2 [.mk 3 []])] ≤ 1 ∧
    ((AsyncOpRunnable.construct 0 : AsyncOpRunnable Nat Unit).exec (fun _ => .ok 5)
        [Call.subscribe (.mk 1 []), Call.run, Call.subscribe (.mk 2 [.mk 3 []])]).invocations 1
      = 1 ∧
    ((AsyncOpRunnable.construct 0 : AsyncOpRunnable Nat Unit).exec (fun _ => .ok 5)
        [Call.subscribe (.mk 1 []), Call.run, Call.subscribe (.mk 2 [.mk 3 []])]).invocations 3
      = 1 :=
  ⟨by decide,
   (callbacks_invoked_once_per_subscription (fun _ => .ok 5) 0
      [Call.subscribe (.mk 1 []), Call.run, Call.subscribe (.mk 2 [.mk 3 []])] 1
      (by decide)).trans (by decide),
   by decide⟩

/-- C6. For a body returning `v` and callbacks subscribed before `run()` on a
fresh operation: subscribing invokes nothing and leaves the callbacks pending;
`run()` then invokes each of them exactly once, in registration order, with the
address of this same operation as handle, at a moment when through that handle
`isDone()` is true and `getResult()` returns `v`. -/
theorem run_invokes_pending_callbacks (doOp : Bool → Except (Exc E) R) (v : R) (addr : Nat)
    (funcs : List Callback) (h : doOp false = .ok v) :
    (reached doOp addr (funcs.map Call.subscribe)).invoked = [] ∧
    (reached doOp addr (funcs.map Call.subscribe))._subs = funcs ∧
    ((reached doOp addr (funcs.map Call.subscribe)).run doOp).thisPtr = addr ∧
    ((reached doOp addr (funcs.map Call.subscribe)).run doOp).invoked =
      (Callback.idsList funcs).map
        (fun i => { func := i, op := addr, sawDone := true, sawResult := .value v }) := by
  rw [reached_subscribe]
  refine ⟨rfl, by simp [AsyncOpRunnable.construct], ?_, ?_⟩
  · rw [run_of_not_aborted _ _ rfl, notify_eq]
    simp [DoneNotifier.fired, runDoOp_thisPtr, AsyncOpRunnable.construct]
  · rw [run_of_not_aborted _ _ rfl, notify_eq]
    simp only [AsyncOpRunnable.runDoOp, AsyncOpRunnable.isStopSignalled,
      AsyncOpRunnable.construct, h, List.nil_append]
    rw [flatMap_views_eq addr _ funcs rfl]
    rfl

/-- Scenario C: callback 1 subscribed before `run`, body returning 5: the
callback is invoked once, with a handle whose `getResult()` is 5. -/
theorem run_invokes_pending_callbacks_witness :
    (fun _ => Except.ok 5 : Bool → Except (Exc Unit) Nat) false = .ok 5 ∧
    (((AsyncOpRunnable.construct 0 : AsyncOpRunnable Nat Unit).exec (fun _ => .ok 5)
        ([Callback.mk 1 []].map Call.subscribe)).run (fun _ => .ok 5)).invoked =
      [{ func := 1, op := 0, sawDone := true, sawResult := .value 5 }] :=
  ⟨rfl, (run_invokes_pending_callbacks (fun _ => .ok 5) 5 0 [Callback.mk 1 []] rfl).2.2.2⟩

/-- C7. On an operation that is already done (any state reached by completed
calls from a fresh operation in which `isDone()` is true: `run()` completed, or
aborted before start), `subscribe(func)` invokes the callback, and whatever it
subscribes in turn, exactly once each inside the `subscribe` call, with the
address of this operation as handle and with `getResult()` giving the stored
outcome; nothing is added to the pending set, which is empty.  The stored
outcome is `AbortedError` after an abort before start, and the stored value when
no exception is stored. -/
theorem subscribe_when_done_invokes_at_once (doOp : Bool → Except (Exc E) R) (addr : Nat)
    (calls : List Call) (f : Callback)
    (hd : (reached doOp addr calls).isDone = true) :
    (DoneNotifier.subscribe f (reached doOp addr calls)).invoked =
      (reached doOp addr calls).invoked ++
        f.ids.map (fun i =>
          { func := i, op := addr, sawDone := true,
            sawResult := (reached doOp addr calls).getResult }) ∧
    (DoneNotifier.subscribe f (reached doOp addr calls))._subs = [] ∧
    (reached doOp addr calls)._subs = [] ∧
    (reached doOp addr calls).thisPtr = addr ∧
    (DoneNotifier.subscribe f (reached doOp addr calls)).getResult =
      (reached doOp addr calls).getResult ∧
    ((reached doOp addr calls)._abortedBeforeStart = true →
      (reached doOp addr calls).getResult = .thrown .AbortedError) ∧
    (∀ v, (reached doOp addr calls)._error = none →
      (reached doOp addr calls)._pResult = some v →
      (reached doOp addr calls).getResult = .value v) := by
  have hs := settled_exec (R := R) (E := E) doOp addr calls
  have hp := thisPtr_exec (R := R) (E := E) doOp addr calls
  generalize reached doOp addr calls = S at *
  have hd' : S._done = true := hd
  have hw : S._pOpWeak = addr := hs.weak.trans hp
  rw [subscribe_of_done f S hd']
  refine ⟨?_, hs.no_subs hd', hs.no_subs hd', hp, rfl, ?_, ?_⟩
  · show S.invoked ++ _ = S.invoked ++ _
    simp [AsyncOpRunnable.observe, hw, hd]
  · intro ha
    simp [AsyncOpRunnable.getResult, hd, hs.aborted_error ha]
  · intro v he hv
    simp [AsyncOpRunnable.getResult, hd, he, hv]

/-- Scenario D: `run` to completion with a body returning 9, then subscribe
callback 2: it is invoked inside `subscribe`, seeing `getResult()` = 9. -/
theorem subscribe_when_done_invokes_at_once_witness :
    ((AsyncOpRunnable.construct 0 : AsyncOpRunnable Nat Unit).exec (fun _ => .ok 9)
        [Call.run]).isDone = true ∧
    (DoneNotifier.subscribe (.mk 2 [])
        ((AsyncOpRunnable.construct 0 : AsyncOpRunnable Nat Unit).exec (fun _ => .ok 9)
          [Call.run])).invoked =
      [{ func := 2, op := 0, sawDone := true, sawResult := .value 9 }] :=
  ⟨by decide,
   (subscribe_when_done_invokes_at_once (fun _ => .ok 9) 0 [Call.run] (.mk 2 [])
      (by decide)).1.trans (by decide)⟩

/-- C8. In every state that is not Pending (`_started` or `_abortedBeforeStart`
is set), `signalStop()` only sets `_stopSignalled`: the two flags, the stored
outcome, the done flag, the pending callbacks and the ghost records of
notifications and invocations are unchanged.  Afterwards `isStopSignalled()` is
true, `getResult()` gives what it gave before, and a second `signalStop()`
changes nothing.  When the call comes while the body is about to run (a fresh
operation after the locked block of `run`), the operation is still not done
afterwards, and the outcome delivered by the rest of `run` is the body's own. -/
theorem signalStop_after_start_sets_flag_only (doOp : Bool → Except (Exc E) R)
    (s : AsyncOpRunnable R E) (addr : Nat) (funcs : List Callback)
    (h : s._started = true ∨ s._abortedBeforeStart = true) :
    s.signalStop = { s with _stopSignalled := true } ∧
    s.signalStop._started = s._started ∧
    s.signalStop._abortedBeforeStart = s._abortedBeforeStart ∧
    s.signalStop._error = s._error ∧
    s.signalStop._pResult = s._pResult ∧
    s.signalStop.isDone = s.isDone ∧
    s.signalStop.notifyCalls = s.notifyCalls ∧
    s.signalStop.invoked = s.invoked ∧
    s.signalStop.isStopSignalled = true ∧
    s.signalStop.getResult = s.getResult ∧
    s.signalStop.signalStop = s.signalStop ∧
    (∀ s1, (reached doOp addr (funcs.map Call.subscribe)).runLocked = some s1 →
      s1.signalStop.isDone = false ∧
      s1.signalStop.notifyCalls = 0 ∧
      (DoneNotifier.notify s1.thisPtr (s1.signalStop.runDoOp doOp)).getResult
        = Returned.ofBody (doOp true)) := by
  have hs := signalStop_of_not_pending s h
  have h2 : ({ s with _stopSignalled := true } : AsyncOpRunnable R E)._started = true ∨
      ({ s with _stopSignalled := true } : AsyncOpRunnable R E)._abortedBeforeStart = true := h
  have hf : ∀ {α : Type} (g : AsyncOpRunnable R E → α),
      (∀ t : AsyncOpRunnable R E, g { t with _stopSignalled := true } = g t) →
      g s.signalStop = g s := by
    intro α g hg
    rw [hs]
    exact hg s
  refine ⟨hs, hf (fun t => t._started) (fun _ => rfl),
    hf (fun t => t._abortedBeforeStart) (fun _ => rfl), hf (fun t => t._error) (fun _ => rfl),
    hf (fun t => t._pResult) (fun _ => rfl), hf (fun t => t.isDone) (fun _ => rfl),
    hf (fun t => t.notifyCalls) (fun _ => rfl), hf (fun t => t.invoked) (fun _ => rfl),
    ?_, hf (fun t => t.getResult) (fun _ => rfl), ?_, ?_⟩
  · rw [hs]
    rfl
  · rw [hs, signalStop_of_not_pending _ h2]
  · intro s1 h1
    rw [reached_subscribe] at h1
    have e1 : s1 = { (AsyncOpRunnable.construct addr : AsyncOpRunnable R E) with
        _subs := funcs, _started := true } := by
      simp [AsyncOpRunnable.runLocked, AsyncOpRunnable.construct] at h1
      simp [AsyncOpRunnable.construct, ← h1]
    subst e1
    rw [signalStop_of_not_pending _ (Or.inl rfl)]
    refine ⟨rfl, rfl, ?_⟩
    rw [notify_eq]
    cases hb : doOp true <;>
      simp [AsyncOpRunnable.getResult, AsyncOpRunnable.isDone, DoneNotifier.isDone,
        DoneNotifier.fired, AsyncOpRunnable.runDoOp, AsyncOpRunnable.isStopSignalled,
        AsyncOpRunnable.construct, Returned.ofBody, hb]

/-- A `signalStop()` after `run()` completed with 5: only the stop flag changes,
and `getResult()` still returns 5. -/
theorem signalStop_after_start_sets_flag_only_witness :
    (((AsyncOpRunnable.construct 0 : AsyncOpRunnable Nat Unit).run (fun _ => .ok 5))._started = true ∨
      ((AsyncOpRunnable.construct 0 : AsyncOpRunnable Nat Unit).run
        (fun _ => .ok 5))._abortedBeforeStart = true) ∧
    (((AsyncOpRunnable.construct 0 : AsyncOpRunnable Nat Unit).run
        (fun _ => .ok 5)).signalStop).isStopSignalled = true ∧
    (((AsyncOpRunnable.construct 0 : AsyncOpRunnable Nat Unit).run
        (fun _ => .ok 5)).signalStop).getResult = .value 5 :=
  have h := signalStop_after_start_sets_flag_only (fun _ => .ok 5)
    ((AsyncOpRunnable.construct 0 : AsyncOpRunnable Nat Unit).run (fun _ => .ok 5)) 0 []
    (Or.inl (by decide))
  ⟨Or.inl (by decide), h.2.2.2.2.2.2.2.2.1, h.2.2.2.2.2.2.2.2.2.1.trans (by decide)⟩

/-- C9. In every state reached from a fresh operation by any sequence of
completed `run()`, `signalStop()` and `subscribe` calls: `_started` and
`_abortedBeforeStart` are not both set, and no later call resets either of them;
between calls the lifecycle is Pending, AbortedBeforeStart or Completed, and a
call either keeps it, or moves Pending to AbortedBeforeStart, or moves Pending
through Started (after the locked block of `run`, and after `doOp`) to
Completed; `doOp` is executed only by a `run()` that saw
`_abortedBeforeStart = false`, and an operation that is aborted before start has
never had its body invoked (so, the flag being kept, never will). -/
theorem lifecycle_single_path (doOp : Bool → Except (Exc E) R) (addr : Nat)
    (calls more : List Call) (c : Call) :
    ¬ ((reached doOp addr calls)._started = true ∧
      (reached doOp addr calls)._abortedBeforeStart = true) ∧
    ((reached doOp addr calls)._started = true →
      (reached doOp addr (calls ++ more))._started = true) ∧
    ((reached doOp addr calls)._abortedBeforeStart = true →
      (reached doOp addr (calls ++ more))._abortedBeforeStart = true) ∧
    (reached doOp addr calls).state ≠ .Started ∧
    ((reached doOp addr (calls ++ [c])).state = (reached doOp addr calls).state ∨
      ((reached doOp addr calls).state = .Pending ∧
        (reached doOp addr (calls ++ [c])).state = .AbortedBeforeStart) ∨
      ((reached doOp addr calls).state = .Pending ∧
        (reached doOp addr (calls ++ [c])).state = .Completed ∧
        ∃ s1, (reached doOp addr calls).runLocked = some s1 ∧
          s1.state = .Started ∧ (s1.runDoOp doOp).state = .Started ∧
          reached doOp addr (calls ++ [c]) =
            DoneNotifier.notify s1.thisPtr (s1.runDoOp doOp))) ∧
    ((reached doOp addr (calls ++ [c])).doOpCalls = (reached doOp addr calls).doOpCalls ∨
      (c.isRun = true ∧ (reached doOp addr calls)._abortedBeforeStart = false ∧
        (reached doOp addr (calls ++ [c])).doOpCalls
          = (reached doOp addr calls).doOpCalls + 1)) ∧
    ((reached doOp addr calls)._abortedBeforeStart = true →
      (reached doOp addr calls).doOpCalls = 0 ∧
      (reached doOp addr (calls ++ more)).doOpCalls = 0) := by
  have hs := settled_exec (R := R) (E := E) doOp addr calls
  have hs2 := settled_exec (R := R) (E := E) doOp addr (calls ++ more)
  rw [reached_concat, reached_append] at *
  generalize reached doOp addr calls = S at *
  have hk := flags_kept_exec doOp more S
  have hzero : ∀ t : AsyncOpRunnable R E, Settled t → t._abortedBeforeStart = true →
      t.doOpCalls = 0 := by
    intro t ht ha
    cases hn : t.doOpCalls with
    | zero => rfl
    | succ n =>
      exact absurd ⟨ht.started_iff.2 (by omega), ha⟩ ht.exclusive
  refine ⟨hs.exclusive, hk.1, hk.2.1, ?_, state_step doOp S c hs, doOpCalls_step doOp S c, ?_⟩
  · rw [state_of_settled S hs]
    cases S._abortedBeforeStart <;> cases S._started <;> simp
  · intro ha
    exact ⟨hzero S hs ha, hzero _ hs2 (hk.2.1 ha)⟩

/-- C10. After every sequence of completed calls on a fresh operation (whatever
the number of `run()` calls, so in particular with at most one): `isDone()` is
true exactly when the operation was aborted before start or `run()` has executed
the body, which is exactly when the lifecycle is AbortedBeforeStart or
Completed; and once `isDone()` is true it is true after every further call. -/
theorem isDone_iff_terminal (doOp : Bool → Except (Exc E) R) (addr : Nat)
    (calls more : List Call) :
    ((reached doOp addr calls).isDone = true ↔
      ((reached doOp addr calls)._abortedBeforeStart = true ∨
        0 < (reached doOp addr calls).doOpCalls)) ∧
    ((reached doOp addr calls).isDone = true ↔
      ((reached doOp addr calls).state = .AbortedBeforeStart ∨
        (reached doOp addr calls).state = .Completed)) ∧
    ((reached doOp addr calls).isDone = true →
      (reached doOp addr (calls ++ more)).isDone = true) := by
  have hs := settled_exec (R := R) (E := E) doOp addr calls
  rw [reached_append]
  generalize reached doOp addr calls = S at *
  refine ⟨hs.done_iff, ?_, (flags_kept_exec doOp more S).2.2⟩
  show S._done = true ↔ _
  rw [hs.done_iff, state_of_settled S hs, ← hs.started_iff]
  cases S._abortedBeforeStart <;> cases S._started <;> simp

/-! ## Members of the state after `notify`, `runDoOp` and `subscribe` -/

theorem notify_done (op : Nat) (s : AsyncOpRunnable R E) :
    (DoneNotifier.notify op s)._done = true := by rw [notify_eq]; rfl

theorem notify_subs (op : Nat) (s : AsyncOpRunnable R E) :
    (DoneNotifier.notify op s)._subs = [] := by rw [notify_eq]

theorem notify_notifyCalls (op : Nat) (s : AsyncOpRunnable R E) :
    (DoneNotifier.notify op s).notifyCalls = s.notifyCalls + 1 := by rw [notify_eq]; rfl

theorem notify_error (op : Nat) (s : AsyncOpRunnable R E) :
    (DoneNotifier.notify op s)._error = s._error := by rw [notify_eq]; rfl

theorem notify_pResult (op : Nat) (s : AsyncOpRunnable R E) :
    (DoneNotifier.notify op s)._pResult = s._pResult := by rw [notify_eq]; rfl

theorem notify_started (op : Nat) (s : AsyncOpRunnable R E) :
    (DoneNotifier.notify op s)._started = s._started := by rw [notify_eq]; rfl

theorem notify_abortedBeforeStart (op : Nat) (s : AsyncOpRunnable R E) :
    (DoneNotifier.notify op s)._abortedBeforeStart = s._abortedBeforeStart := by
  rw [notify_eq]; rfl

theorem notify_stopSignalled (op : Nat) (s : AsyncOpRunnable R E) :
    (DoneNotifier.notify op s)._stopSignalled = s._stopSignalled := by rw [notify_eq]; rfl

theorem notify_doOpCalls (op : Nat) (s : AsyncOpRunnable R E) :
    (DoneNotifier.notify op s).doOpCalls = s.doOpCalls := by rw [notify_eq]; rfl

theorem notify_outcomeWrites (op : Nat) (s : AsyncOpRunnable R E) :
    (DoneNotifier.notify op s).outcomeWrites = s.outcomeWrites := by rw [notify_eq]; rfl

theorem notify_thisPtr (op : Nat) (s : AsyncOpRunnable R E) :
    (DoneNotifier.notify op s).thisPtr = s.thisPtr := by rw [notify_eq]; rfl

theorem notify_pOpWeak (op : Nat) (s : AsyncOpRunnable R E) :
    (DoneNotifier.notify op s)._pOpWeak = s._pOpWeak := by rw [notify_eq]; rfl

theorem notify_getResult (op : Nat) (s : AsyncOpRunnable R E) :
    (DoneNotifier.notify op s).getResult =
      ({ s with _done := true } : AsyncOpRunnable R E).getResult := by
  rw [notify_eq]; rfl

theorem runDoOp_eq (doOp : Bool → Except (Exc E) R) (s : AsyncOpRunnable R E) :
    s.runDoOp doOp =
      { s with
          _error := match doOp s._stopSignalled with
            | .ok _ => s._error
            | .error e => some e
          _pResult := match doOp s._stopSignalled with
            | .ok v => some v
            | .error _ => s._pResult
          doOpCalls := s.doOpCalls + 1
          outcomeWrites := s.outcomeWrites + 1 } := by
  unfold AsyncOpRunnable.runDoOp AsyncOpRunnable.isStopSignalled
  cases doOp s._stopSignalled <;> rfl

theorem subscribe_core (f : Callback) (s : AsyncOpRunnable R E) :
    (DoneNotifier.subscribe f s)._done = s._done ∧
    (DoneNotifier.subscribe f s)._error = s._error ∧
    (DoneNotifier.subscribe f s)._pResult = s._pResult ∧
    (DoneNotifier.subscribe f s)._started = s._started ∧
    (DoneNotifier.subscribe f s)._abortedBeforeStart = s._abortedBeforeStart ∧
    (DoneNotifier.subscribe f s)._stopSignalled = s._stopSignalled ∧
    (DoneNotifier.subscribe f s).doOpCalls = s.doOpCalls ∧
    (DoneNotifier.subscribe f s).outcomeWrites = s.outcomeWrites ∧
    (DoneNotifier.subscribe f s).notifyCalls = s.notifyCalls ∧
    (DoneNotifier.subscribe f s).thisPtr = s.thisPtr ∧
    (DoneNotifier.subscribe f s)._pOpWeak = s._pOpWeak :=
  subscribe_cases f s
    (fun t => t._done = s._done ∧ t._error = s._error ∧ t._pResult = s._pResult ∧
      t._started = s._started ∧ t._abortedBeforeStart = s._abortedBeforeStart ∧
      t._stopSignalled = s._stopSignalled ∧ t.doOpCalls = s.doOpCalls ∧
      t.outcomeWrites = s.outcomeWrites ∧ t.notifyCalls = s.notifyCalls ∧
      t.thisPtr = s.thisPtr ∧ t._pOpWeak = s._pOpWeak)
    (fun _ => ⟨rfl, rfl, rfl, rfl, rfl, rfl, rfl, rfl, rfl, rfl, rfl⟩)
    (fun _ => ⟨rfl, rfl, rfl, rfl, rfl, rfl, rfl, rfl, rfl, rfl, rfl⟩)

/-! ## Running twice, and failures of the body -/

/-- C18. `run()` does not check that it is called once: on every operation that
was not aborted before start, a second `run()` executes `doOp` a second time,
writes the outcome a second time and calls `DoneNotifier::notify` a second time;
on a fresh operation the three counters are 2 after two `run()` calls.  The
second write is visible: with a body that returns 1 or 2 depending on the stop
flag, `getResult()` returns 1 after `run()` and 2 after a later `signalStop()`
and second `run()`. -/
theorem run_twice_repeats_everything (doOp : Bool → Except (Exc E) R)
    (s : AsyncOpRunnable R E) (addr : Nat) (hab : s._abortedBeforeStart = false) :
    ((s.run doOp).run doOp).doOpCalls = s.doOpCalls + 2 ∧
    ((s.run doOp).run doOp).outcomeWrites = s.outcomeWrites + 2 ∧
    ((s.run doOp).run doOp).notifyCalls = s.notifyCalls + 2 ∧
    (reached doOp addr [Call.run, Call.run]).doOpCalls = 2 ∧
    (reached doOp addr [Call.run, Call.run]).outcomeWrites = 2 ∧
    (reached doOp addr [Call.run, Call.run]).notifyCalls = 2 ∧
    Call.runs [Call.run, Call.run] = 2 ∧
    (reached (fun b => if b then Except.ok 2 else Except.ok 1 : Bool → Except (Exc Unit) Nat)
        0 [Call.run]).getResult = .value 1 ∧
    (reached (fun b => if b then Except.ok 2 else Except.ok 1 : Bool → Except (Exc Unit) Nat)
        0 [Call.run, Call.signalStop, Call.run]).getResult = .value 2 := by
  have h1 : ∀ t : AsyncOpRunnable R E, t._abortedBeforeStart = false →
      (t.run doOp)._abortedBeforeStart = false ∧
      (t.run doOp).doOpCalls = t.doOpCalls + 1 ∧
      (t.run doOp).outcomeWrites = t.outcomeWrites + 1 ∧
      (t.run doOp).notifyCalls = t.notifyCalls + 1 := by
    intro t ht
    rw [run_of_not_aborted doOp t ht, notify_abortedBeforeStart, notify_doOpCalls,
      notify_outcomeWrites, notify_notifyCalls, runDoOp_eq]
    exact ⟨ht, rfl, rfl, rfl⟩
  obtain ⟨a0, a1, a2, a3⟩ := h1 s hab
  obtain ⟨_, b1, b2, b3⟩ := h1 (s.run doOp) a0
  obtain ⟨c0, c1, c2, c3⟩ := h1 (AsyncOpRunnable.construct addr : AsyncOpRunnable R E) rfl
  obtain ⟨_, d1, d2, d3⟩ := h1 ((AsyncOpRunnable.construct addr : AsyncOpRunnable R E).run doOp) c0
  refine ⟨by omega, by omega, by omega, ?_, ?_, ?_, by decide, by decide, by decide⟩
  · show (((AsyncOpRunnable.construct addr : AsyncOpRunnable R E).run doOp).run doOp).doOpCalls = 2
    rw [d1, c1]; rfl
  · show (((AsyncOpRunnable.construct addr : AsyncOpRunnable R E).run doOp).run
      doOp).outcomeWrites = 2
    rw [d2, c2]; rfl
  · show (((AsyncOpRunnable.construct addr : AsyncOpRunnable R E).run doOp).run
      doOp).notifyCalls = 2
    rw [d3, c3]; rfl

/-- Two `run()` calls on a fresh operation with a body returning 1: `doOp` has
run twice and `notify` has been called twice. -/
theorem run_twice_repeats_everything_witness :
    (AsyncOpRunnable.construct 0 : AsyncOpRunnable Nat Unit)._abortedBeforeStart = false ∧
    (((AsyncOpRunnable.construct 0 : AsyncOpRunnable Nat Unit).run (fun _ => .ok 1)).run
        (fun _ => .ok 1)).doOpCalls = 2 ∧
    (((AsyncOpRunnable.construct 0 : AsyncOpRunnable Nat Unit).run (fun _ => .ok 1)).run
        (fun _ => .ok 1)).notifyCalls = 2 :=
  have h := run_twice_repeats_everything (fun _ => Except.ok 1)
    (AsyncOpRunnable.construct 0 : AsyncOpRunnable Nat Unit) 0 rfl
  ⟨rfl, h.1, h.2.2.1⟩

/-! ## Callbacks that throw -/

theorem resubscribeThrowing_cons (throwsOf : Nat → Option (Exc E)) (g : Callback)
    (gs : List Callback) (s : AsyncOpRunnable R E) :
    Callback.resubscribeThrowing throwsOf (g :: gs) s =
      match DoneNotifier.subscribeThrowing throwsOf g s with
      | { op := s1, escaped := some x } => { op := s1, escaped := some x }
      | { op := s1, escaped := none } => Callback.resubscribeThrowing throwsOf gs s1 := by
  rw [Callback.resubscribeThrowing, DoneNotifier.subscribeThrowing]
  cases s._done <;> rfl

mutual
theorem callThrowing_of_done (throwsOf : Nat → Option (Exc E)) (op : Nat) :
    ∀ (f : Callback) (s : AsyncOpRunnable R E), s._done = true →
      (∃ l, (f.callThrowing throwsOf op s).op = { s with invoked := s.invoked ++ l }) ∧
      (∀ x, (f.callThrowing throwsOf op s).escaped = some x →
        ∃ i, i ∈ f.ids ∧ throwsOf i = some x) ∧
      ((∀ i, i ∈ f.ids → throwsOf i = none) →
        f.callThrowing throwsOf op s = { op := f.call op s, escaped := none })
  | .mk id resub, s, hd => by
    rw [Callback.callThrowing]
    cases ht : throwsOf id with
    | some x =>
      refine ⟨⟨_, rfl⟩, fun y hy => ⟨id, by simp [Callback.ids], ?_⟩, fun hnone => ?_⟩
      · simp only [Option.some.injEq] at hy
        rw [ht, hy]
      · rw [hnone id (by simp [Callback.ids])] at ht
        cases ht
    | none =>
      obtain ⟨⟨l, hl⟩, hb, hc⟩ := resubscribeThrowing_of_done throwsOf resub
        { s with invoked := s.invoked ++ [s.observe id op] } hd
      refine ⟨⟨s.observe id op :: l, ?_⟩, fun y hy => ?_, fun hnone => ?_⟩
      · simp only [hl, List.append_assoc, List.singleton_append]
      · obtain ⟨i, hi, hx⟩ := hb y hy
        exact ⟨i, by simp [Callback.ids, hi], hx⟩
      · rw [hc (fun i hi => hnone i (by simp [Callback.ids, hi])), Callback.call]
theorem resubscribeThrowing_of_done (throwsOf : Nat → Option (Exc E)) :
    ∀ (gs : List Callback) (s : AsyncOpRunnable R E), s._done = true →
      (∃ l, (Callback.resubscribeThrowing throwsOf gs s).op =
        { s with invoked := s.invoked ++ l }) ∧
      (∀ x, (Callback.resubscribeThrowing throwsOf gs s).escaped = some x →
        ∃ i, i ∈ Callback.idsList gs ∧ throwsOf i = some x) ∧
      ((∀ i, i ∈ Callback.idsList gs → throwsOf i = none) →
        Callback.resubscribeThrowing throwsOf gs s =
          { op := Callback.resubscribe gs s, escaped := none })
  | [], s, _ => by
    rw [Callback.resubscribeThrowing]
    exact ⟨⟨[], by simp⟩, fun x hx => (by cases hx), fun _ => rfl⟩
  | g :: gs, s, hd => by
    obtain ⟨⟨l, hl⟩, hb, hc⟩ := callThrowing_of_done throwsOf s._pOpWeak g s hd
    rw [Callback.resubscribeThrowing, if_pos hd]
    generalize hr : Callback.callThrowing throwsOf s._pOpWeak g s = r at hl hb hc
    rcases r with ⟨s1, _ | x⟩
    · have hs1 : s1 = { s with invoked := s.invoked ++ l } := hl
      have hd1 : s1._done = true := by rw [hs1]; exact hd
      obtain ⟨⟨l2, hl2⟩, hb2, hc2⟩ := resubscribeThrowing_of_done throwsOf gs s1 hd1
      refine ⟨⟨l ++ l2, ?_⟩, fun y hy => ?_, fun hnone => ?_⟩
      · show (Callback.resubscribeThrowing throwsOf gs s1).op = _
        rw [hl2, hs1]
        simp only [List.append_assoc]
      · obtain ⟨i, hi, hx⟩ := hb2 y hy
        exact ⟨i, by simp [Callback.idsList, hi], hx⟩
      · have e1 := hc (fun i hi => hnone i (by simp [Callback.idsList, hi]))
        have e2 := hc2 (fun i hi => hnone i (by simp [Callback.idsList, hi]))
        have e3 : s1 = g.call s._pOpWeak s := congrArg Ended.op e1
        show Callback.resubscribeThrowing throwsOf gs s1 = _
        rw [e2, e3, Callback.resubscribe, if_pos hd]
    · refine ⟨⟨l, hl⟩, fun y hy => ?_, fun hnone => ?_⟩
      · obtain ⟨i, hi, hx⟩ := hb y hy
        exact ⟨i, by simp [Callback.idsList, hi], hx⟩
      · have e1 := hc (fun i hi => hnone i (by simp [Callback.idsList, hi]))
        have : (some x : Option (Exc E)) = none := congrArg Ended.escaped e1
        cases this
end

mutual
theorem callThrowing_none (throwsOf : Nat → Option (Exc E)) (op : Nat) :
    ∀ (f : Callback) (s : AsyncOpRunnable R E), s._done = true →
      (f.callThrowing throwsOf op s).escaped = none → ∀ i, i ∈ f.ids → throwsOf i = none
  | .mk id resub, s, hd => by
    rw [Callback.callThrowing]
    cases ht : throwsOf id with
    | some x => exact fun h => (by cases h)
    | none =>
      intro h i hi
      have ih := resubscribeThrowing_none throwsOf resub
        { s with invoked := s.invoked ++ [s.observe id op] } hd h
      simp only [Callback.ids, List.mem_cons] at hi
      rcases hi with hi | hi
      · rw [hi]; exact ht
      · exact ih i hi
theorem resubscribeThrowing_none (throwsOf : Nat → Option (Exc E)) :
    ∀ (gs : List Callback) (s : AsyncOpRunnable R E), s._done = true →
      (Callback.resubscribeThrowing throwsOf gs s).escaped = none →
      ∀ i, i ∈ Callback.idsList gs → throwsOf i = none
  | [], _, _ => by
    intro _ i hi
    simp [Callback.idsList] at hi
  | g :: gs, s, hd => by
    obtain ⟨⟨l, hl⟩, _, _⟩ := callThrowing_of_done throwsOf s._pOpWeak g s hd
    have ihg := callThrowing_none throwsOf s._pOpWeak g s hd
    rw [Callback.resubscribeThrowing, if_pos hd]
    generalize hr : Callback.callThrowing throwsOf s._pOpWeak g s = r at hl ihg
    rcases r with ⟨s1, _ | x⟩
    · intro h i hi
      have hs1 : s1 = { s with invoked := s.invoked ++ l } := hl
      have hd1 : s1._done = true := by rw [hs1]; exact hd
      have ihs := resubscribeThrowing_none throwsOf gs s1 hd1 h
      simp only [Callback.idsList, List.mem_append] at hi
      rcases hi with hi | hi
      · exact ihg rfl i hi
      · exact ihs i hi
    · exact fun h => (by cases h)
end

theorem move_run_entry_aborted (doOp : Bool → Except (Exc E) R) (c : Interleaving R E)
    (hr : c.run = .entry) (hab : c.op._abortedBeforeStart = true) :
    c.move doOp .run = { c with run := .returned } := by
  simp [Interleaving.move, hr, AsyncOpRunnable.runLocked, hab]

theorem move_run_entry_free (doOp : Bool → Except (Exc E) R) (c : Interleaving R E)
    (hr : c.run = .entry) (hab : c.op._abortedBeforeStart = false) :
    c.move doOp .run = { c with op := { c.op with _started := true }, run := .body } := by
  simp [Interleaving.move, hr, AsyncOpRunnable.runLocked, hab]

theorem move_run_body (doOp : Bool → Except (Exc E) R) (c : Interleaving R E)
    (hr : c.run = .body) :
    c.move doOp .run = { c with op := c.op.runDoOp doOp, run := .notify } := by
  simp [Interleaving.move, hr]

theorem move_run_notify (doOp : Bool → Except (Exc E) R) (c : Interleaving R E)
    (hr : c.run = .notify) :
    c.move doOp .run =
      { c with op := DoneNotifier.notify c.op.thisPtr c.op, run := .returned } := by
  simp [Interleaving.move, hr]

theorem move_run_idle (doOp : Bool → Except (Exc E) R) (c : Interleaving R E)
    (hr : c.run = .notCalled ∨ c.run = .returned) : c.move doOp .run = c := by
  rcases hr with hr | hr <;> simp [Interleaving.move, hr]

theorem move_stopLocked_zero (doOp : Bool → Except (Exc E) R) (c : Interleaving R E)
    (h : c.stopEntry = 0) : c.move doOp .stopLocked = c := by
  simp [Interleaving.move, h]

theorem move_stopLocked_pending (doOp : Bool → Except (Exc E) R) (c : Interleaving R E) (n : Nat)
    (h : c.stopEntry = n + 1) (hst : c.op._started = false)
    (hab : c.op._abortedBeforeStart = false) :
    c.move doOp .stopLocked =
      { c with
          op := { c.op with
                    _stopSignalled := true
                    _abortedBeforeStart := true
                    _error := some .AbortedError
                    outcomeWrites := c.op.outcomeWrites + 1 }
          stopEntry := n
          stopNotify := c.stopNotify + 1 } := by
  simp [Interleaving.move, h, AsyncOpRunnable.signalStopLocked, hst, hab]

theorem move_stopLocked_flag (doOp : Bool → Except (Exc E) R) (c : Interleaving R E) (n : Nat)
    (h : c.stopEntry = n + 1)
    (hf : c.op._started = true ∨ c.op._abortedBeforeStart = true) :
    c.move doOp .stopLocked =
      { c with op := { c.op with _stopSignalled := true }, stopEntry := n } := by
  rcases hf with hf | hf <;>
    simp [Interleaving.move, h, AsyncOpRunnable.signalStopLocked, hf]

theorem move_stopNotify_zero (doOp : Bool → Except (Exc E) R) (c : Interleaving R E)
    (h : c.stopNotify = 0) : c.move doOp .stopNotify = c := by
  simp [Interleaving.move, h]

theorem move_stopNotify_succ (doOp : Bool → Except (Exc E) R) (c : Interleaving R E) (n : Nat)
    (h : c.stopNotify = n + 1) :
    c.move doOp .stopNotify =
      { c with op := DoneNotifier.notify c.op.thisPtr c.op, stopNotify := n } := by
  simp [Interleaving.move, h]

theorem move_subscribe_none (doOp : Bool → Except (Exc E) R) (c : Interleaving R E) (i : Nat)
    (h : c.subscribeEntry[i]? = none) : c.move doOp (.subscribe i) = c := by
  simp [Interleaving.move, h]

theorem move_subscribe_some (doOp : Bool → Except (Exc E) R) (c : Interleaving R E) (i : Nat)
    (f : Callback) (h : c.subscribeEntry[i]? = some f) :
    c.move doOp (.subscribe i) =
      { c with op := DoneNotifier.subscribe f c.op
               subscribeEntry := c.subscribeEntry.eraseIdx i } := by
  simp [Interleaving.move, h]

/-! ## Interleavings: the stages -/

theorem inPhase_of_same (doOp : Bool → Except (Exc E) R) (c d : Interleaving R E) (p : Phase)
    (h : c.inPhase doOp p)
    (hab : d.op._abortedBeforeStart = c.op._abortedBeforeStart)
    (hst : d.op._started = c.op._started) (hd : d.op._done = c.op._done)
    (he : d.op._error = c.op._error) (hp : d.op._pResult = c.op._pResult)
    (hc : d.op.doOpCalls = c.op.doOpCalls) (hw : d.op.outcomeWrites = c.op.outcomeWrites)
    (hn : d.op.notifyCalls = c.op.notifyCalls) (hs : d.stopNotify = c.stopNotify)
    (hr : d.run = c.run) : d.inPhase doOp p := by
  cases p <;>
    simp only [Interleaving.inPhase, Interleaving.shows, AsyncOpRunnable.holdsBodyOutcome,
      hab, hst, hd, he, hp, hc, hw, hn, hs, hr] at h ⊢ <;>
    exact h

/-- One atomic step takes an interleaving that is in a stage to a stage that can
follow it, and it changes the stored outcome only out of the stages `pending`
and `started`, in which none is stored. -/
theorem inPhase_move (doOp : Bool → Except (Exc E) R) (c : Interleaving R E) (m : Move)
    (p : Phase) (h : c.inPhase doOp p) :
    ∃ q, p.leadsTo q = true ∧ (c.move doOp m).inPhase doOp q ∧
      ((p ≠ .pending ∧ p ≠ .started) →
        (c.move doOp m).op._error = c.op._error ∧
        (c.move doOp m).op._pResult = c.op._pResult) := by
  have hself : p.leadsTo p = true := by cases p <;> rfl
  have stay : c.move doOp m = c → ∃ q, p.leadsTo q = true ∧ (c.move doOp m).inPhase doOp q ∧
      ((p ≠ .pending ∧ p ≠ .started) →
        (c.move doOp m).op._error = c.op._error ∧
        (c.move doOp m).op._pResult = c.op._pResult) := by
    intro e
    rw [e]
    exact ⟨p, hself, h, fun _ => ⟨rfl, rfl⟩⟩
  cases m with
  | subscribe i =>
    cases hf : c.subscribeEntry[i]? with
    | none => exact stay (move_subscribe_none doOp c i hf)
    | some f =>
      rw [move_subscribe_some doOp c i f hf]
      obtain ⟨a1, a2, a3, a4, a5, a6, a7, a8, a9, _, _⟩ := subscribe_core f c.op
      exact ⟨p, hself, inPhase_of_same doOp c _ p h a5 a4 a1 a2 a3 a7 a8 a9 rfl rfl,
        fun _ => ⟨a2, a3⟩⟩
  | stopNotify =>
    cases hn : c.stopNotify with
    | zero => exact stay (move_stopNotify_zero doOp c hn)
    | succ n =>
      rw [move_stopNotify_succ doOp c n hn]
      cases p with
      | aborting =>
        simp only [Interleaving.inPhase, Interleaving.shows] at h
        obtain ⟨⟨h1, h2, _, h4, h5, h6, h7⟩, he, hp, hr⟩ := h
        refine ⟨.aborted, rfl, ?_, fun _ => ⟨notify_error _ _, notify_pResult _ _⟩⟩
        simp only [Interleaving.inPhase, Interleaving.shows, notify_abortedBeforeStart,
          notify_started, notify_done, notify_doOpCalls, notify_outcomeWrites,
          notify_notifyCalls, notify_error, notify_pResult]
        exact ⟨⟨h1, h2, trivial, h4, h5, by omega, by omega⟩, he, hp, hr⟩
      | pending | aborted | started | ran | completed =>
        simp only [Interleaving.inPhase, Interleaving.shows] at h
        have := h.1.2.2.2.2.2.2
        omega
  | stopLocked =>
    cases hn : c.stopEntry with
    | zero => exact stay (move_stopLocked_zero doOp c hn)
    | succ n =>
      cases p with
      | pending =>
        simp only [Interleaving.inPhase, Interleaving.shows] at h
        obtain ⟨⟨h1, h2, h3, h4, h5, h6, h7⟩, _, hp, hr⟩ := h
        rw [move_stopLocked_pending doOp c n hn h2 h1]
        refine ⟨.aborting, rfl, ?_, fun hne => absurd rfl hne.1⟩
        simp only [Interleaving.inPhase, Interleaving.shows]
        refine ⟨⟨trivial, h2, h3, h4, by omega, h6, by omega⟩, trivial, hp, ?_⟩
        rcases hr with hr | hr
        · exact Or.inl hr
        · exact Or.inr (Or.inl hr)
      | aborting | aborted =>
        have hab : c.op._abortedBeforeStart = true := by
          simp only [Interleaving.inPhase, Interleaving.shows] at h
          exact h.1.1
        rw [move_stopLocked_flag doOp c n hn (Or.inr hab)]
        exact ⟨_, hself, inPhase_of_same doOp c _ _ h rfl rfl rfl rfl rfl rfl rfl rfl rfl rfl,
          fun _ => ⟨rfl, rfl⟩⟩
      | started | ran | completed =>
        have hst : c.op._started = true := by
          simp only [Interleaving.inPhase, Interleaving.shows] at h
          exact h.1.2.1
        rw [move_stopLocked_flag doOp c n hn (Or.inl hst)]
        exact ⟨_, hself, inPhase_of_same doOp c _ _ h rfl rfl rfl rfl rfl rfl rfl rfl rfl rfl,
          fun _ => ⟨rfl, rfl⟩⟩
  | run =>
    cases p with
    | pending =>
      simp only [Interleaving.inPhase, Interleaving.shows] at h
      obtain ⟨⟨h1, _, h3, h4, h5, h6, h7⟩, he, hp, hr⟩ := h
      rcases hr with hr | hr
      · rw [move_run_entry_free doOp c hr h1]
        refine ⟨.started, rfl, ?_, fun hne => absurd rfl hne.1⟩
        simp only [Interleaving.inPhase, Interleaving.shows]
        exact ⟨⟨h1, trivial, h3, h4, h5, h6, h7⟩, he, hp, trivial⟩
      · exact stay (move_run_idle doOp c (Or.inl hr))
    | aborting | aborted =>
      have hab : c.op._abortedBeforeStart = true := by
        simp only [Interleaving.inPhase, Interleaving.shows] at h
        exact h.1.1
      have hr : c.run = .entry ∨ c.run = .notCalled ∨ c.run = .returned := by
        simp only [Interleaving.inPhase, Interleaving.shows] at h
        exact h.2.2.2
      rcases hr with hr | hr | hr
      · rw [move_run_entry_aborted doOp c hr hab]
        refine ⟨_, hself, ?_, fun _ => ⟨rfl, rfl⟩⟩
        simp only [Interleaving.inPhase, Interleaving.shows] at h ⊢
        exact ⟨h.1, h.2.1, h.2.2.1, Or.inr (Or.inr trivial)⟩
      · exact stay (move_run_idle doOp c (Or.inl hr))
      · exact stay (move_run_idle doOp c (Or.inr hr))
    | started =>
      simp only [Interleaving.inPhase, Interleaving.shows] at h
      obtain ⟨⟨h1, h2, h3, h4, h5, h6, h7⟩, he, hp, hr⟩ := h
      rw [move_run_body doOp c hr]
      refine ⟨.ran, rfl, ?_, fun hne => absurd rfl hne.2⟩
      simp only [Interleaving.inPhase, Interleaving.shows, runDoOp_eq]
      refine ⟨⟨h1, h2, h3, by omega, by omega, h6, h7⟩, ⟨c.op._stopSignalled, ?_⟩, trivial⟩
      cases hb : doOp c.op._stopSignalled with
      | ok v => exact Or.inl ⟨v, rfl, he, rfl⟩
      | error e => exact Or.inr ⟨e, rfl, rfl, hp⟩
    | ran =>
      simp only [Interleaving.inPhase, Interleaving.shows] at h
      obtain ⟨⟨h1, h2, _, h4, h5, h6, h7⟩, ho, hr⟩ := h
      rw [move_run_notify doOp c hr]
      refine ⟨.completed, rfl, ?_, fun _ => ⟨notify_error _ _, notify_pResult _ _⟩⟩
      simp only [Interleaving.inPhase, Interleaving.shows, AsyncOpRunnable.holdsBodyOutcome,
        notify_abortedBeforeStart, notify_started, notify_done, notify_doOpCalls,
        notify_outcomeWrites, notify_notifyCalls, notify_error, notify_pResult]
      exact ⟨⟨h1, h2, trivial, h4, h5, by omega, h7⟩, ho, trivial⟩
    | completed =>
      have hr : c.run = .returned := by
        simp only [Interleaving.inPhase, Interleaving.shows] at h
        exact h.2.2
      exact stay (move_run_idle doOp c (Or.inr hr))

theorem leadsTo_trans (p q r : Phase) (h1 : p.leadsTo q = true) (h2 : q.leadsTo r = true) :
    p.leadsTo r = true := by
  revert h1 h2
  cases p <;> cases q <;> cases r <;> decide

theorem leadsTo_outcome (p q : Phase) (h : p.leadsTo q = true)
    (hp : p ≠ .pending ∧ p ≠ .started) : q ≠ .pending ∧ q ≠ .started := by
  revert h hp
  cases p <;> cases q <;> decide

theorem play_append (doOp : Bool → Except (Exc E) R) (c : Interleaving R E)
    (moves more : List Move) :
    c.play doOp (moves ++ more) = (c.play doOp moves).play doOp more := by
  simp [Interleaving.play, List.foldl_append]

theorem interleaved_append (doOp : Bool → Except (Exc E) R) (addr : Nat) (withRun : Bool)
    (stops : Nat) (funcs : List Callback) (moves more : List Move) :
    interleaved doOp addr withRun stops funcs (moves ++ more) =
      (interleaved doOp addr withRun stops funcs moves).play doOp more :=
  play_append doOp _ moves more

/-- Atomic steps take an interleaving that is in a stage to a stage that can
follow it, and once an outcome is stored they do not change it. -/
theorem inPhase_play (doOp : Bool → Except (Exc E) R) (more : List Move) (c : Interleaving R E)
    (p : Phase) (h : c.inPhase doOp p) :
    ∃ q, p.leadsTo q = true ∧ (c.play doOp more).inPhase doOp q ∧
      ((p ≠ .pending ∧ p ≠ .started) →
        (c.play doOp more).op._error = c.op._error ∧
        (c.play doOp more).op._pResult = c.op._pResult) := by
  induction more generalizing c p with
  | nil =>
    refine ⟨p, ?_, h, fun _ => ⟨rfl, rfl⟩⟩
    cases p <;> rfl
  | cons m ms ih =>
    obtain ⟨q, hq1, hq2, hq3⟩ := inPhase_move doOp c m p h
    obtain ⟨r, hr1, hr2, hr3⟩ := ih (c.move doOp m) q hq2
    refine ⟨r, leadsTo_trans p q r hq1 hr1, hr2, fun hp => ?_⟩
    obtain ⟨a1, a2⟩ := hq3 hp
    obtain ⟨b1, b2⟩ := hr3 (leadsTo_outcome p q hq1 hp)
    exact ⟨b1.trans a1, b2.trans a2⟩

theorem inPhase_start (doOp : Bool → Except (Exc E) R) (addr : Nat) (withRun : Bool)
    (stops : Nat) (funcs : List Callback) :
    (Interleaving.start addr withRun stops funcs : Interleaving R E).inPhase doOp .pending := by
  simp only [Interleaving.inPhase, Interleaving.shows, Interleaving.start,
    AsyncOpRunnable.construct]
  cases withRun <;> simp

theorem inPhase_interleaved (doOp : Bool → Except (Exc E) R) (addr : Nat) (withRun : Bool)
    (stops : Nat) (funcs : List Callback) (moves : List Move) :
    ∃ p, (interleaved doOp addr withRun stops funcs moves).inPhase doOp p := by
  obtain ⟨q, _, hq, _⟩ := inPhase_play doOp moves _ .pending
    (inPhase_start doOp addr withRun stops funcs)
  exact ⟨q, hq⟩

/-! ## Interleavings: the calls in flight -/

theorem move_run_pool (doOp : Bool → Except (Exc E) R) (c : Interleaving R E) :
    (c.move doOp .run).stopEntry = c.stopEntry ∧
    (c.move doOp .run).stopNotify = c.stopNotify ∧
    (c.move doOp .run).subscribeEntry = c.subscribeEntry ∧
    (c.move doOp .run).run.remaining ≤ c.run.remaining - 1 := by
  cases hr : c.run with
  | notCalled => rw [move_run_idle doOp c (Or.inl hr), hr]; exact ⟨rfl, rfl, rfl, Nat.le_refl _⟩
  | returned => rw [move_run_idle doOp c (Or.inr hr), hr]; exact ⟨rfl, rfl, rfl, Nat.le_refl _⟩
  | body => rw [move_run_body doOp c hr]; exact ⟨rfl, rfl, rfl, by simp [RunPc.remaining]⟩
  | notify => rw [move_run_notify doOp c hr]; exact ⟨rfl, rfl, rfl, by simp [RunPc.remaining]⟩
  | entry =>
    cases hab : c.op._abortedBeforeStart with
    | true => rw [move_run_entry_aborted doOp c hr hab]; exact ⟨rfl, rfl, rfl, by simp [RunPc.remaining]⟩
    | false => rw [move_run_entry_free doOp c hr hab]; exact ⟨rfl, rfl, rfl, by simp [RunPc.remaining]⟩

theorem move_stopLocked_pool (doOp : Bool → Except (Exc E) R) (c : Interleaving R E) :
    (c.move doOp .stopLocked).run = c.run ∧
    (c.move doOp .stopLocked).subscribeEntry = c.subscribeEntry ∧
    (c.move doOp .stopLocked).stopEntry = c.stopEntry - 1 ∧
    (c.move doOp .stopLocked).stopEntry + (c.move doOp .stopLocked).stopNotify ≤
      c.stopEntry + c.stopNotify := by
  cases hn : c.stopEntry with
  | zero =>
    rw [move_stopLocked_zero doOp c hn]
    exact ⟨rfl, rfl, by omega, by omega⟩
  | succ n =>
    by_cases hf : c.op._started = true ∨ c.op._abortedBeforeStart = true
    · rw [move_stopLocked_flag doOp c n hn hf]
      exact ⟨rfl, rfl, by simp, by simp⟩
    · have h1 : c.op._started = false := by
        cases h : c.op._started with
        | false => rfl
        | true => exact absurd (Or.inl h) hf
      have h2 : c.op._abortedBeforeStart = false := by
        cases h : c.op._abortedBeforeStart with
        | false => rfl
        | true => exact absurd (Or.inr h) hf
      rw [move_stopLocked_pending doOp c n hn h1 h2]
      exact ⟨rfl, rfl, by simp, by simp; omega⟩

theorem move_stopNotify_pool (doOp : Bool → Except (Exc E) R) (c : Interleaving R E) :
    (c.move doOp .stopNotify).run = c.run ∧
    (c.move doOp .stopNotify).subscribeEntry = c.subscribeEntry ∧
    (c.move doOp .stopNotify).stopEntry = c.stopEntry ∧
    (c.move doOp .stopNotify).stopNotify = c.stopNotify - 1 := by
  cases hn : c.stopNotify with
  | zero => rw [move_stopNotify_zero doOp c hn]; exact ⟨rfl, rfl, rfl, by omega⟩
  | succ n => rw [move_stopNotify_succ doOp c n hn]; exact ⟨rfl, rfl, rfl, by simp⟩

theorem move_subscribe_pool (doOp : Bool → Except (Exc E) R) (c : Interleaving R E) :
    (c.move doOp (.subscribe 0)).run = c.run ∧
    (c.move doOp (.subscribe 0)).stopEntry = c.stopEntry ∧
    (c.move doOp (.subscribe 0)).stopNotify = c.stopNotify ∧
    (c.move doOp (.subscribe 0)).subscribeEntry.length = c.subscribeEntry.length - 1 := by
  cases hs : c.subscribeEntry with
  | nil =>
    rw [move_subscribe_none doOp c 0 (by simp [hs]), hs]
    exact ⟨rfl, rfl, rfl, rfl⟩
  | cons f fs =>
    rw [move_subscribe_some doOp c 0 f (by simp [hs])]
    exact ⟨rfl, rfl, rfl, by simp [hs]⟩

theorem play_replicate_stopLocked (doOp : Bool → Except (Exc E) R) (k : Nat)
    (c : Interleaving R E) :
    (c.play doOp (List.replicate k .stopLocked)).run = c.run ∧
    (c.play doOp (List.replicate k .stopLocked)).subscribeEntry = c.subscribeEntry ∧
    (c.play doOp (List.replicate k .stopLocked)).stopEntry = c.stopEntry - k ∧
    (c.play doOp (List.replicate k .stopLocked)).stopEntry +
        (c.play doOp (List.replicate k .stopLocked)).stopNotify ≤
      c.stopEntry + c.stopNotify := by
  induction k generalizing c with
  | zero => exact ⟨rfl, rfl, rfl, Nat.le_refl _⟩
  | succ k ih =>
    obtain ⟨a1, a2, a3, a4⟩ := move_stopLocked_pool doOp c
    obtain ⟨b1, b2, b3, b4⟩ := ih (c.move doOp .stopLocked)
    simp only [Interleaving.play, List.replicate_succ, List.foldl_cons] at b1 b2 b3 b4 ⊢
    exact ⟨b1.trans a1, b2.trans a2, by omega, by omega⟩

theorem play_replicate_stopNotify (doOp : Bool → Except (Exc E) R) (k : Nat)
    (c : Interleaving R E) :
    (c.play doOp (List.replicate k .stopNotify)).run = c.run ∧
    (c.play doOp (List.replicate k .stopNotify)).subscribeEntry = c.subscribeEntry ∧
    (c.play doOp (List.replicate k .stopNotify)).stopEntry = c.stopEntry ∧
    (c.play doOp (List.replicate k .stopNotify)).stopNotify = c.stopNotify - k := by
  induction k generalizing c with
  | zero => exact ⟨rfl, rfl, rfl, rfl⟩
  | succ k ih =>
    obtain ⟨a1, a2, a3, a4⟩ := move_stopNotify_pool doOp c
    obtain ⟨b1, b2, b3, b4⟩ := ih (c.move doOp .stopNotify)
    simp only [Interleaving.play, List.replicate_succ, List.foldl_cons] at b1 b2 b3 b4 ⊢
    exact ⟨b1.trans a1, b2.trans a2, b3.trans a3, by omega⟩

theorem play_replicate_subscribe (doOp : Bool → Except (Exc E) R) (k : Nat)
    (c : Interleaving R E) :
    (c.play doOp (List.replicate k (.subscribe 0))).run = c.run ∧
    (c.play doOp (List.replicate k (.subscribe 0))).stopEntry = c.stopEntry ∧
    (c.play doOp (List.replicate k (.subscribe 0))).stopNotify = c.stopNotify ∧
    (c.play doOp (List.replicate k (.subscribe 0))).subscribeEntry.length =
      c.subscribeEntry.length - k := by
  induction k generalizing c with
  | zero => exact ⟨rfl, rfl, rfl, rfl⟩
  | succ k ih =>
    obtain ⟨a1, a2, a3, a4⟩ := move_subscribe_pool doOp c
    obtain ⟨b1, b2, b3, b4⟩ := ih (c.move doOp (.subscribe 0))
    simp only [Interleaving.play, List.replicate_succ, List.foldl_cons] at b1 b2 b3 b4 ⊢
    exact ⟨b1.trans a1, b2.trans a2, b3.trans a3, by omega⟩

theorem play_run_thrice (doOp : Bool → Except (Exc E) R) (c : Interleaving R E) :
    ((c.play doOp [.run, .run, .run]).run = .notCalled ∨
      (c.play doOp [.run, .run, .run]).run = .returned) ∧
    (c.play doOp [.run, .run, .run]).stopEntry = c.stopEntry ∧
    (c.play doOp [.run, .run, .run]).stopNotify = c.stopNotify ∧
    (c.play doOp [.run, .run, .run]).subscribeEntry = c.subscribeEntry := by
  obtain ⟨a1, a2, a3, a4⟩ := move_run_pool doOp c
  obtain ⟨b1, b2, b3, b4⟩ := move_run_pool doOp (c.move doOp .run)
  obtain ⟨c1, c2, c3, c4⟩ := move_run_pool doOp ((c.move doOp .run).move doOp .run)
  simp only [Interleaving.play, List.foldl_cons, List.foldl_nil]
  refine ⟨?_, c1.trans (b1.trans a1), c2.trans (b2.trans a2), c3.trans (b3.trans a3)⟩
  have hle : c.run.remaining ≤ 3 := by cases c.run <;> decide
  have h0 : (((c.move doOp .run).move doOp .run).move doOp .run).run.remaining = 0 := by omega
  revert h0
  cases (((c.move doOp .run).move doOp .run).move doOp .run).run <;> simp [RunPc.remaining]

/-- The steps of `Interleaving.drain` complete every call in flight. -/
theorem play_drain (doOp : Bool → Except (Exc E) R) (c : Interleaving R E) :
    (c.play doOp c.drain).allReturned = true := by
  unfold Interleaving.drain
  rw [play_append, play_append, play_append]
  obtain ⟨a0, a1, a2, a3⟩ := play_run_thrice doOp c
  generalize c.play doOp [.run, .run, .run] = c1 at *
  obtain ⟨b0, b1, b2, b3⟩ := play_replicate_stopLocked doOp c.stopEntry c1
  generalize c1.play doOp (List.replicate c.stopEntry .stopLocked) = c2 at *
  obtain ⟨d0, d1, d2, d3⟩ := play_replicate_stopNotify doOp (c.stopNotify + c.stopEntry) c2
  generalize c2.play doOp (List.replicate (c.stopNotify + c.stopEntry) .stopNotify) = c3 at *
  obtain ⟨e0, e1, e2, e3⟩ := play_replicate_subscribe doOp c.subscribeEntry.length c3
  generalize c3.play doOp (List.replicate c.subscribeEntry.length (.subscribe 0)) = c4 at *
  have hrun : c4.run = .notCalled ∨ c4.run = .returned := by
    rw [e0, d0, b0]; exact a0
  have hse : c4.stopEntry = 0 := by omega
  have hsn : c4.stopNotify = 0 := by omega
  have hsub : c4.subscribeEntry = [] := by
    apply List.eq_nil_of_length_eq_zero
    rw [e3, d1, b1, a3]
    omega
  unfold Interleaving.allReturned
  rcases hrun with h | h <;> simp [h, hse, hsn, hsub]

theorem move_notCalled_iff (doOp : Bool → Except (Exc E) R) (c : Interleaving R E) (m : Move) :
    (c.move doOp m).run = .notCalled ↔ c.run = .notCalled := by
  cases m with
  | stopLocked => rw [(move_stopLocked_pool doOp c).1]
  | stopNotify => rw [(move_stopNotify_pool doOp c).1]
  | subscribe i =>
    cases hf : c.subscribeEntry[i]? with
    | none => rw [move_subscribe_none doOp c i hf]
    | some f => rw [move_subscribe_some doOp c i f hf]
  | run =>
    cases hr : c.run with
    | notCalled => rw [move_run_idle doOp c (Or.inl hr), hr]
    | returned => rw [move_run_idle doOp c (Or.inr hr), hr]
    | body => rw [move_run_body doOp c hr]; simp
    | notify => rw [move_run_notify doOp c hr]; simp
    | entry =>
      cases hab : c.op._abortedBeforeStart with
      | true => rw [move_run_entry_aborted doOp c hr hab]; simp
      | false => rw [move_run_entry_free doOp c hr hab]; simp

theorem play_notCalled_iff (doOp : Bool → Except (Exc E) R) (moves : List Move)
    (c : Interleaving R E) :
    (c.play doOp moves).run = .notCalled ↔ c.run = .notCalled := by
  induction moves generalizing c with
  | nil => exact Iff.rfl
  | cons m ms ih => exact (ih (c.move doOp m)).trans (move_notCalled_iff doOp c m)

theorem subs_empty_move (doOp : Bool → Except (Exc E) R) (c : Interleaving R E) (m : Move)
    (h : c.op._done = true → c.op._subs = []) :
    (c.move doOp m).op._done = true → (c.move doOp m).op._subs = [] := by
  cases m with
  | run =>
    cases hr : c.run with
    | notCalled => rw [move_run_idle doOp c (Or.inl hr)]; exact h
    | returned => rw [move_run_idle doOp c (Or.inr hr)]; exact h
    | body => rw [move_run_body doOp c hr, runDoOp_eq]; exact h
    | notify => rw [move_run_notify doOp c hr]; exact fun _ => notify_subs _ _
    | entry =>
      cases hab : c.op._abortedBeforeStart with
      | true => rw [move_run_entry_aborted doOp c hr hab]; exact h
      | false => rw [move_run_entry_free doOp c hr hab]; exact h
  | stopLocked =>
    cases hn : c.stopEntry with
    | zero => rw [move_stopLocked_zero doOp c hn]; exact h
    | succ n =>
      by_cases hf : c.op._started = true ∨ c.op._abortedBeforeStart = true
      · rw [move_stopLocked_flag doOp c n hn hf]; exact h
      · have h1 : c.op._started = false := by
          cases h' : c.op._started with
          | false => rfl
          | true => exact absurd (Or.inl h') hf
        have h2 : c.op._abortedBeforeStart = false := by
          cases h' : c.op._abortedBeforeStart with
          | false => rfl
          | true => exact absurd (Or.inr h') hf
        rw [move_stopLocked_pending doOp c n hn h1 h2]; exact h
  | stopNotify =>
    cases hn : c.stopNotify with
    | zero => rw [move_stopNotify_zero doOp c hn]; exact h
    | succ n => rw [move_stopNotify_succ doOp c n hn]; exact fun _ => notify_subs _ _
  | subscribe i =>
    cases hf : c.subscribeEntry[i]? with
    | none => rw [move_subscribe_none doOp c i hf]; exact h
    | some f =>
      rw [move_subscribe_some doOp c i f hf]
      exact subscribe_cases f c.op (fun t => t._done = true → t._subs = [])
        (fun hd _ => h hd) (fun hd hd' => by rw [hd] at hd'; cases hd')

theorem subs_empty_interleaved (doOp : Bool → Except (Exc E) R) (addr : Nat) (withRun : Bool)
    (stops : Nat) (funcs : List Callback) (moves : List Move) :
    (interleaved doOp addr withRun stops funcs moves).op._done = true →
      (interleaved doOp addr withRun stops funcs moves).op._subs = [] := by
  have key : ∀ (ms : List Move) (c : Interleaving R E),
      (c.op._done = true → c.op._subs = []) →
      (c.play doOp ms).op._done = true → (c.play doOp ms).op._subs = [] := by
    intro ms
    induction ms with
    | nil => exact fun _ h => h
    | cons m ms ih => exact fun c h => ih (c.move doOp m) (subs_empty_move doOp c m h)
  exact key moves _ (fun hd => by simp [Interleaving.start, AsyncOpRunnable.construct] at hd)

theorem done_of_notified_interleaved (doOp : Bool → Except (Exc E) R) (addr : Nat)
    (withRun : Bool) (stops : Nat) (funcs : List Callback) (moves : List Move) :
    (interleaved doOp addr withRun stops funcs moves).op.notifyCalls ≠ 0 →
      (interleaved doOp addr withRun stops funcs moves).op._done = true := by
  obtain ⟨p, hp⟩ := inPhase_interleaved doOp addr withRun stops funcs moves
  intro hn
  cases p <;> simp only [Interleaving.inPhase, Interleaving.shows] at hp
  · exact absurd hp.1.2.2.2.2.2.1 hn
  · exact absurd hp.1.2.2.2.2.2.1 hn
  · exact hp.1.2.2.1
  · exact absurd hp.1.2.2.2.2.2.1 hn
  · exact absurd hp.1.2.2.2.2.2.1 hn
  · exact hp.1.2.2.1

/-! ## Calls made one after the other are interleavings -/

theorem play_run_call (doOp : Bool → Except (Exc E) R) (c : Interleaving R E)
    (hr : c.run = .entry) :
    c.play doOp [.run, .run, .run] = { c with op := c.op.run doOp, run := .returned } := by
  cases hab : c.op._abortedBeforeStart with
  | true =>
    simp [Interleaving.play, Interleaving.move, hr, AsyncOpRunnable.runLocked,
      AsyncOpRunnable.run, hab]
  | false =>
    simp [Interleaving.play, Interleaving.move, hr, AsyncOpRunnable.runLocked,
      AsyncOpRunnable.run, hab, runDoOp_thisPtr]

theorem play_stop_call (doOp : Bool → Except (Exc E) R) (c : Interleaving R E) (n : Nat)
    (hn : c.stopEntry = n + 1) (h0 : c.stopNotify = 0) :
    c.play doOp [.stopLocked, .stopNotify] =
      { c with op := c.op.signalStop, stopEntry := n, stopNotify := 0 } := by
  cases h1 : c.op._started <;> cases h2 : c.op._abortedBeforeStart <;>
    simp [Interleaving.play, Interleaving.move, hn, h0, AsyncOpRunnable.signalStopLocked,
      AsyncOpRunnable.signalStop, h1, h2]

theorem moves_append (calls more : List Call) :
    Call.moves (calls ++ more) = Call.moves calls ++ Call.moves more := by
  induction calls with
  | nil => rfl
  | cons c cs ih => cases c <;> simp [Call.moves, ih]

theorem stops_append (calls more : List Call) :
    Call.stops (calls ++ more) = Call.stops calls + Call.stops more := by
  induction calls with
  | nil => simp [Call.stops]
  | cons c cs ih => cases c <;> simp [Call.stops, ih]; omega

theorem funcs_append (calls more : List Call) :
    Call.funcs (calls ++ more) = Call.funcs calls ++ Call.funcs more := by
  induction calls with
  | nil => rfl
  | cons c cs ih => cases c <;> simp [Call.funcs, ih]

/-- Calls made one after the other, with enough calls in flight to supply them:
playing their atomic steps in order gives the state that executing the calls
gives, and uses up exactly those calls. -/
theorem play_moves (doOp : Bool → Except (Exc E) R) (calls : List Call) (c : Interleaving R E)
    (extra : List Callback) (hruns : Call.runs calls ≤ 1)
    (hrun : Call.runs calls = 1 → c.run = .entry) (hstops : Call.stops calls ≤ c.stopEntry)
    (h0 : c.stopNotify = 0) (hsub : c.subscribeEntry = Call.funcs calls ++ extra) :
    (c.play doOp (Call.moves calls)).op = c.op.exec doOp calls ∧
    (c.play doOp (Call.moves calls)).stopEntry = c.stopEntry - Call.stops calls ∧
    (c.play doOp (Call.moves calls)).stopNotify = 0 ∧
    (c.play doOp (Call.moves calls)).subscribeEntry = extra ∧
    (Call.runs calls = 0 → (c.play doOp (Call.moves calls)).run = c.run) := by
  induction calls generalizing c with
  | nil => exact ⟨rfl, rfl, h0, by simpa [Call.funcs] using hsub, fun _ => rfl⟩
  | cons a cs ih =>
    cases a with
    | run =>
      have hcs : Call.runs cs = 0 := by
        simp [Call.runs, Call.isRun] at hruns ⊢
        exact hruns
      have hr : c.run = .entry := hrun (by simp [Call.runs, Call.isRun] at hcs ⊢; exact hcs)
      have hstep := play_run_call doOp c hr
      simp only [Call.moves, play_append, hstep]
      obtain ⟨a1, a2, a3, a4, _⟩ := ih { c with op := c.op.run doOp, run := .returned }
        (by omega) (fun h => by omega) hstops h0 hsub
      refine ⟨a1, a2, a3, a4, fun h => ?_⟩
      simp [Call.runs, Call.isRun] at h
    | signalStop =>
      have hruns' : Call.runs cs ≤ 1 := by
        simpa [Call.runs, Call.isRun] using hruns
      have hst : Call.stops cs + 1 ≤ c.stopEntry := hstops
      obtain ⟨n, hn⟩ : ∃ n, c.stopEntry = n + 1 := ⟨c.stopEntry - 1, by omega⟩
      have hstep := play_stop_call doOp c n hn h0
      simp only [Call.moves, play_append, hstep]
      obtain ⟨a1, a2, a3, a4, a5⟩ := ih
        { c with op := c.op.signalStop, stopEntry := n, stopNotify := 0 } hruns'
        (fun h => hrun (by simpa [Call.runs, Call.isRun] using h)) (by simp; omega) rfl hsub
      refine ⟨a1, ?_, a3, a4, fun h => a5 (by simpa [Call.runs, Call.isRun] using h)⟩
      rw [a2]
      simp only [Call.stops]
      omega
    | subscribe f =>
      have hruns' : Call.runs cs ≤ 1 := by
        simpa [Call.runs, Call.isRun] using hruns
      have hget : c.subscribeEntry[0]? = some f := by simp [hsub, Call.funcs]
      have hstep : c.play doOp [.subscribe 0] =
          { c with op := DoneNotifier.subscribe f c.op
                   subscribeEntry := c.subscribeEntry.eraseIdx 0 } := by
        simp only [Interleaving.play, List.foldl_cons, List.foldl_nil]
        exact move_subscribe_some doOp c 0 f hget
      have hmv : Call.moves (Call.subscribe f :: cs) = [Move.subscribe 0] ++ Call.moves cs := rfl
      rw [hmv, play_append, hstep]
      obtain ⟨a1, a2, a3, a4, a5⟩ := ih
        { c with op := DoneNotifier.subscribe f c.op
                 subscribeEntry := c.subscribeEntry.eraseIdx 0 } hruns'
        (fun h => hrun (by simpa [Call.runs, Call.isRun] using h)) hstops h0
        (by simp [hsub, Call.funcs])
      exact ⟨a1, a2, a3, a4, fun h => a5 (by simpa [Call.runs, Call.isRun] using h)⟩

/-! ## Interleavings: the claims -/

/-- C11. In every state of every interleaving of at most one `run()` call with
any number of `signalStop()` and `subscribe` calls, the states between a locked
block and the `notify` that follows it included: if `isDone()` is true then
exactly one of `_error` and `_pResult` is set, and `getResult()` throws that
exception or returns that value, so it never dereferences a null `_pResult`.
While a call stands between its locked block and its `notify`, `isDone()` is
false. -/
theorem done_implies_outcome_stored (doOp : Bool → Except (Exc E) R) (addr : Nat)
    (withRun : Bool) (stops : Nat) (funcs : List Callback) (moves : List Move) :
    ((interleaved doOp addr withRun stops funcs moves).op.isDone = true →
      ((∃ e, (interleaved doOp addr withRun stops funcs moves).op._error = some e ∧
          (interleaved doOp addr withRun stops funcs moves).op._pResult = none ∧
          (interleaved doOp addr withRun stops funcs moves).op.getResult = .thrown e) ∨
        (∃ v, (interleaved doOp addr withRun stops funcs moves).op._error = none ∧
          (interleaved doOp addr withRun stops funcs moves).op._pResult = some v ∧
          (interleaved doOp addr withRun stops funcs moves).op.getResult = .value v)) ∧
      (interleaved doOp addr withRun stops funcs moves).op.getResult ≠ .nullDeref) ∧
    (((interleaved doOp addr withRun stops funcs moves).stopNotify ≠ 0 ∨
        (interleaved doOp addr withRun stops funcs moves).run = .body ∨
        (interleaved doOp addr withRun stops funcs moves).run = .notify) →
      (interleaved doOp addr withRun stops funcs moves).op.isDone = false) := by
  obtain ⟨p, hp⟩ := inPhase_interleaved doOp addr withRun stops funcs moves
  generalize interleaved doOp addr withRun stops funcs moves = c at *
  have key : c.op._done = true →
      (∃ e, c.op._error = some e ∧ c.op._pResult = none) ∨
        (∃ v, c.op._error = none ∧ c.op._pResult = some v) := by
    intro hd
    cases p <;> simp only [Interleaving.inPhase, Interleaving.shows] at hp
    · rw [hp.1.2.2.1] at hd; cases hd
    · rw [hp.1.2.2.1] at hd; cases hd
    · exact Or.inl ⟨_, hp.2.1, hp.2.2.1⟩
    · rw [hp.1.2.2.1] at hd; cases hd
    · rw [hp.1.2.2.1] at hd; cases hd
    · obtain ⟨_, ⟨b, hb⟩, _⟩ := hp
      rcases hb with ⟨v, _, h1, h2⟩ | ⟨e, _, h1, h2⟩
      · exact Or.inr ⟨v, h1, h2⟩
      · exact Or.inl ⟨e, h1, h2⟩
  refine ⟨fun hd => ?_, fun hw => ?_⟩
  · have hd' : c.op._done = true := hd
    rcases key hd' with ⟨e, h1, h2⟩ | ⟨v, h1, h2⟩
    · have hg : c.op.getResult = .thrown e := by
        simp [AsyncOpRunnable.getResult, hd, h1]
      exact ⟨Or.inl ⟨e, h1, h2, hg⟩, by rw [hg]; exact fun h => by cases h⟩
    · have hg : c.op.getResult = .value v := by
        simp [AsyncOpRunnable.getResult, hd, h1, h2]
      exact ⟨Or.inr ⟨v, h1, h2, hg⟩, by rw [hg]; exact fun h => by cases h⟩
  · show c.op._done = false
    cases p <;> simp only [Interleaving.inPhase, Interleaving.shows] at hp
    · exact hp.1.2.2.1
    · exact hp.1.2.2.1
    · obtain ⟨⟨_, _, _, _, _, _, h7⟩, _, _, hr⟩ := hp
      rcases hw with hw | hw | hw
      · exact absurd h7 hw
      · rw [hw] at hr; simp at hr
      · rw [hw] at hr; simp at hr
    · exact hp.1.2.2.1
    · exact hp.1.2.2.1
    · obtain ⟨⟨_, _, _, _, _, _, h7⟩, _, hr⟩ := hp
      rcases hw with hw | hw | hw
      · exact absurd h7 hw
      · rw [hw] at hr; cases hr
      · rw [hw] at hr; cases hr

/-- One `run()` and one `signalStop()` racing, `signalStop()` first: after the
locked block of `signalStop()` the operation is not done; after its `notify` it
is done and `getResult()` throws `AbortedError`. -/
theorem done_implies_outcome_stored_scenario :
    (interleaved (fun _ => .ok 1 : Bool → Except (Exc Unit) Nat) 0 true 1 []
        [.stopLocked]).op.isDone = false ∧
    (interleaved (fun _ => .ok 1 : Bool → Except (Exc Unit) Nat) 0 true 1 []
        [.stopLocked, .run, .stopNotify]).op.isDone = true ∧
    (interleaved (fun _ => .ok 1 : Bool → Except (Exc Unit) Nat) 0 true 1 []
        [.stopLocked, .run, .stopNotify]).op.getResult = .thrown .AbortedError := by
  decide

/-- C14. In every interleaving of one `run()` call with `stops` concurrent
`signalStop()` calls (and any `subscribe` calls) on a fresh operation: at every
moment `notify` has been called at most once, `doOp` has been executed at most
once, the outcome has been written at most once, and `_started` and
`_abortedBeforeStart` are not both set.  When all calls have returned, `notify`
has been called exactly once, the operation is done, and either `run()` won
(`_started`, body executed exactly once, `getResult()` gives the body's own
outcome) or one `signalStop()` won (`_abortedBeforeStart`, body never executed,
`getResult()` throws `AbortedError`).  Every interleaving can be continued until
all calls have returned. -/
theorem one_run_many_signalStops (doOp : Bool → Except (Exc E) R) (addr : Nat) (stops : Nat)
    (funcs : List Callback) (moves : List Move) :
    (interleaved doOp addr true stops funcs moves).op.notifyCalls ≤ 1 ∧
    (interleaved doOp addr true stops funcs moves).op.doOpCalls ≤ 1 ∧
    (interleaved doOp addr true stops funcs moves).op.outcomeWrites ≤ 1 ∧
    ¬ ((interleaved doOp addr true stops funcs moves).op._started = true ∧
      (interleaved doOp addr true stops funcs moves).op._abortedBeforeStart = true) ∧
    ((interleaved doOp addr true stops funcs moves).allReturned = true →
      (interleaved doOp addr true stops funcs moves).op.notifyCalls = 1 ∧
      (interleaved doOp addr true stops funcs moves).op.isDone = true ∧
      (((interleaved doOp addr true stops funcs moves).op._started = true ∧
          (interleaved doOp addr true stops funcs moves).op._abortedBeforeStart = false ∧
          (interleaved doOp addr true stops funcs moves).op.doOpCalls = 1 ∧
          ∃ b, (interleaved doOp addr true stops funcs moves).op.getResult
            = Returned.ofBody (doOp b)) ∨
        ((interleaved doOp addr true stops funcs moves).op._abortedBeforeStart = true ∧
          (interleaved doOp addr true stops funcs moves).op._started = false ∧
          (interleaved doOp addr true stops funcs moves).op.doOpCalls = 0 ∧
          (interleaved doOp addr true stops funcs moves).op.getResult
            = .thrown .AbortedError))) ∧
    (interleaved doOp addr true stops funcs
      (moves ++ (interleaved doOp addr true stops funcs moves).drain)).allReturned = true := by
  obtain ⟨p, hp⟩ := inPhase_interleaved doOp addr true stops funcs moves
  have hcalled : (interleaved doOp addr true stops funcs moves).run ≠ .notCalled := by
    intro h
    have := (play_notCalled_iff doOp moves (Interleaving.start addr true stops funcs)).1 h
    simp [Interleaving.start] at this
  have hdrain := play_drain doOp (interleaved doOp addr true stops funcs moves)
  rw [interleaved_append]
  generalize interleaved doOp addr true stops funcs moves = c at *
  refine ⟨?_, ?_, ?_, ?_, ?_, hdrain⟩
  · cases p <;> simp only [Interleaving.inPhase, Interleaving.shows] at hp <;>
      rw [hp.1.2.2.2.2.2.1] <;> decide
  · cases p <;> simp only [Interleaving.inPhase, Interleaving.shows] at hp <;>
      rw [hp.1.2.2.2.1] <;> decide
  · cases p <;> simp only [Interleaving.inPhase, Interleaving.shows] at hp <;>
      rw [hp.1.2.2.2.2.1] <;> decide
  · cases p <;> simp only [Interleaving.inPhase, Interleaving.shows] at hp <;>
      rw [hp.1.1, hp.1.2.1] <;> decide
  · intro hall
    simp only [Interleaving.allReturned, Bool.and_eq_true, Bool.or_eq_true, beq_iff_eq] at hall
    obtain ⟨⟨⟨hrun, _⟩, hsn⟩, _⟩ := hall
    have hret : c.run = .returned := by
      rcases hrun with h | h
      · exact absurd h hcalled
      · exact h
    cases p <;> simp only [Interleaving.inPhase, Interleaving.shows] at hp
    · rcases hp.2.2.2 with h | h <;> rw [hret] at h <;> cases h
    · have := hp.1.2.2.2.2.2.2
      omega
    · obtain ⟨⟨h1, h2, h3, h4, _, h6, _⟩, he, _, _⟩ := hp
      refine ⟨h6, h3, Or.inr ⟨h1, h2, h4, ?_⟩⟩
      simp [AsyncOpRunnable.getResult, AsyncOpRunnable.isDone, DoneNotifier.isDone, h3, he]
    · have := hp.2.2.2
      rw [hret] at this
      cases this
    · have := hp.2.2
      rw [hret] at this
      cases this
    · obtain ⟨⟨h1, h2, h3, h4, _, h6, _⟩, ⟨b, hb⟩, _⟩ := hp
      refine ⟨h6, h3, Or.inl ⟨h2, h1, h4, b, ?_⟩⟩
      rcases hb with ⟨v, hv, e1, e2⟩ | ⟨e, hv, e1, e2⟩ <;>
        simp [AsyncOpRunnable.getResult, AsyncOpRunnable.isDone, DoneNotifier.isDone, h3, e1, e2,
          hv, Returned.ofBody]

/-- One `run()` against two `signalStop()` calls.  When the first `signalStop()`
enters its locked block before `run()` does, the operation ends aborted with the
body never executed; when `run()` enters first, it ends with the body's value;
`notify` is called once either way. -/
theorem one_run_many_signalStops_scenario :
    (interleaved (fun _ => .ok 7 : Bool → Except (Exc Unit) Nat) 0 true 2 []
        [.stopLocked, .run, .stopLocked, .stopNotify]).allReturned = true ∧
    (interleaved (fun _ => .ok 7 : Bool → Except (Exc Unit) Nat) 0 true 2 []
        [.stopLocked, .run, .stopLocked, .stopNotify]).op.getResult = .thrown .AbortedError ∧
    (interleaved (fun _ => .ok 7 : Bool → Except (Exc Unit) Nat) 0 true 2 []
        [.stopLocked, .run, .stopLocked, .stopNotify]).op.doOpCalls = 0 ∧
    (interleaved (fun _ => .ok 7 : Bool → Except (Exc Unit) Nat) 0 true 2 []
        [.stopLocked, .run, .stopLocked, .stopNotify]).op.notifyCalls = 1 ∧
    (interleaved (fun _ => .ok 7 : Bool → Except (Exc Unit) Nat) 0 true 2 []
        [.run, .stopLocked, .run, .stopLocked, .run]).allReturned = true ∧
    (interleaved (fun _ => .ok 7 : Bool → Except (Exc Unit) Nat) 0 true 2 []
        [.run, .stopLocked, .run, .stopLocked, .run]).op.getResult = .value 7 ∧
    (interleaved (fun _ => .ok 7 : Bool → Except (Exc Unit) Nat) 0 true 2 []
        [.run, .stopLocked, .run, .stopLocked, .run]).op.doOpCalls = 1 ∧
    (interleaved (fun _ => .ok 7 : Bool → Except (Exc Unit) Nat) 0 true 2 []
        [.run, .stopLocked, .run, .stopLocked, .run]).op.notifyCalls = 1 := by
  decide

/-- Once an outcome is stored in an interleaving of at most one `run()` call
with any number of other calls, no later step changes it. -/
theorem outcome_kept_interleaved (doOp : Bool → Except (Exc E) R) (addr : Nat) (withRun : Bool)
    (stops : Nat) (funcs : List Callback) (moves more : List Move) :
    (interleaved doOp addr withRun stops funcs (moves ++ more)).op.outcomeWrites ≤ 1 ∧
    (((interleaved doOp addr withRun stops funcs moves).op._error ≠ none ∨
        (interleaved doOp addr withRun stops funcs moves).op._pResult ≠ none) →
      (interleaved doOp addr withRun stops funcs (moves ++ more)).op._error =
        (interleaved doOp addr withRun stops funcs moves).op._error ∧
      (interleaved doOp addr withRun stops funcs (moves ++ more)).op._pResult =
        (interleaved doOp addr withRun stops funcs moves).op._pResult) ∧
    ((interleaved doOp addr withRun stops funcs moves).op.isDone = true →
      (interleaved doOp addr withRun stops funcs (moves ++ more)).op.isDone = true ∧
      (interleaved doOp addr withRun stops funcs (moves ++ more)).op.getResult =
        (interleaved doOp addr withRun stops funcs moves).op.getResult) := by
  obtain ⟨p, hp⟩ := inPhase_interleaved doOp addr withRun stops funcs moves
  obtain ⟨r, hr⟩ := inPhase_interleaved doOp addr withRun stops funcs (moves ++ more)
  rw [interleaved_append] at *
  generalize interleaved doOp addr withRun stops funcs moves = c at *
  obtain ⟨q, hq1, hq2, hq3⟩ := inPhase_play doOp more c p hp
  have hset : (c.op._error ≠ none ∨ c.op._pResult ≠ none) → p ≠ .pending ∧ p ≠ .started := by
    intro h
    cases p <;> simp only [Interleaving.inPhase, Interleaving.shows] at hp
    · rcases h with h | h
      · exact absurd hp.2.1 h
      · exact absurd hp.2.2.1 h
    · exact ⟨by decide, by decide⟩
    · exact ⟨by decide, by decide⟩
    · rcases h with h | h
      · exact absurd hp.2.1 h
      · exact absurd hp.2.2.1 h
    · exact ⟨by decide, by decide⟩
    · exact ⟨by decide, by decide⟩
  have hdone : c.op._done = true → p = .aborted ∨ p = .completed := by
    intro h
    cases p <;> simp only [Interleaving.inPhase, Interleaving.shows] at hp
    · rw [hp.1.2.2.1] at h; cases h
    · rw [hp.1.2.2.1] at h; cases h
    · exact Or.inl rfl
    · rw [hp.1.2.2.1] at h; cases h
    · rw [hp.1.2.2.1] at h; cases h
    · exact Or.inr rfl
  refine ⟨?_, fun h => hq3 (hset h), fun hd => ?_⟩
  · cases r <;> simp only [Interleaving.inPhase, Interleaving.shows] at hr <;>
      rw [hr.1.2.2.2.2.1] <;> decide
  · have hd' : c.op._done = true := hd
    have hpq : q = p := by
      rcases hdone hd' with e | e <;> subst e <;> revert hq1 <;> cases q <;> decide
    subst hpq
    have hne : q ≠ .pending ∧ q ≠ .started := by
      rcases hdone hd' with e | e <;> subst e <;> exact ⟨by decide, by decide⟩
    obtain ⟨e1, e2⟩ := hq3 hne
    have hd2 : (c.play doOp more).op._done = true := by
      rcases hdone hd' with e | e <;> subst e <;>
        simp only [Interleaving.inPhase, Interleaving.shows] at hq2 <;> exact hq2.1.2.2.1
    refine ⟨hd2, ?_⟩
    simp only [AsyncOpRunnable.getResult, AsyncOpRunnable.isDone, DoneNotifier.isDone, hd2, hd',
      e1, e2]

theorem runs_append (calls more : List Call) :
    Call.runs (calls ++ more) = Call.runs calls + Call.runs more := by
  simp [Call.runs, List.countP_append]

/-- The state after a sequence of completed calls is the state of the
interleaving in which all calls of the whole sequence `calls ++ later` are in
flight and the atomic steps of `calls` have been taken in order. -/
theorem reached_eq_interleaved (doOp : Bool → Except (Exc E) R) (addr : Nat)
    (calls later : List Call) (h : Call.runs (calls ++ later) ≤ 1) :
    (interleaved doOp addr (decide (Call.runs (calls ++ later) = 1))
        (Call.stops (calls ++ later)) (Call.funcs (calls ++ later)) (Call.moves calls)).op =
      reached doOp addr calls := by
  rw [runs_append] at h
  have key := play_moves doOp calls
    (Interleaving.start addr (decide (Call.runs (calls ++ later) = 1))
      (Call.stops (calls ++ later)) (Call.funcs (calls ++ later)) : Interleaving R E)
    (Call.funcs later) (by omega)
    (fun h1 => by
      have : Call.runs (calls ++ later) = 1 := by rw [runs_append]; omega
      simp [Interleaving.start, this])
    (by simp [Interleaving.start, stops_append])
    rfl (by simp [Interleaving.start, funcs_append])
  exact key.1

/-- C12. With `run()` invoked at most once and `signalStop()` any number of
times, the outcome is written at most once: once `_error` or `_pResult` is set,
nothing later changes either of them, and once the operation is done it stays
done and `getResult()` gives the same value or the same exception ever after.
This holds in every interleaving of the calls (first three parts, `moves`
followed by `more`), and so for calls made one after the other (last part,
`calls` followed by `later`). -/
theorem outcome_written_once (doOp : Bool → Except (Exc E) R) (addr : Nat) (withRun : Bool)
    (stops : Nat) (funcs : List Callback) (moves more : List Move) (calls later : List Call) :
    (interleaved doOp addr withRun stops funcs (moves ++ more)).op.outcomeWrites ≤ 1 ∧
    (((interleaved doOp addr withRun stops funcs moves).op._error ≠ none ∨
        (interleaved doOp addr withRun stops funcs moves).op._pResult ≠ none) →
      (interleaved doOp addr withRun stops funcs (moves ++ more)).op._error =
        (interleaved doOp addr withRun stops funcs moves).op._error ∧
      (interleaved doOp addr withRun stops funcs (moves ++ more)).op._pResult =
        (interleaved doOp addr withRun stops funcs moves).op._pResult) ∧
    ((interleaved doOp addr withRun stops funcs moves).op.isDone = true →
      (interleaved doOp addr withRun stops funcs (moves ++ more)).op.isDone = true ∧
      (interleaved doOp addr withRun stops funcs (moves ++ more)).op.getResult =
        (interleaved doOp addr withRun stops funcs moves).op.getResult) ∧
    (Call.runs (calls ++ later) ≤ 1 →
      (reached doOp addr (calls ++ later)).outcomeWrites ≤ 1 ∧
      (((reached doOp addr calls)._error ≠ none ∨ (reached doOp addr calls)._pResult ≠ none) →
        (reached doOp addr (calls ++ later))._error = (reached doOp addr calls)._error ∧
        (reached doOp addr (calls ++ later))._pResult = (reached doOp addr calls)._pResult) ∧
      ((reached doOp addr calls).isDone = true →
        (reached doOp addr (calls ++ later)).isDone = true ∧
        (reached doOp addr (calls ++ later)).getResult = (reached doOp addr calls).getResult)) := by
  obtain ⟨a1, a2, a3⟩ := outcome_kept_interleaved doOp addr withRun stops funcs moves more
  refine ⟨a1, a2, a3, fun hruns => ?_⟩
  have e1 := reached_eq_interleaved doOp addr calls later hruns
  have e2 := reached_eq_interleaved doOp addr (calls ++ later) [] (by simpa using hruns)
  simp only [List.append_nil, moves_append] at e2
  have key := outcome_kept_interleaved doOp addr (decide (Call.runs (calls ++ later) = 1))
    (Call.stops (calls ++ later)) (Call.funcs (calls ++ later)) (Call.moves calls)
    (Call.moves later)
  rw [e1, e2] at key
  exact key

/-- A `run()` with a body returning 5, then two `signalStop()` calls and a late
subscription: the outcome has been written once and `getResult()` still
returns 5. -/
theorem outcome_written_once_scenario :
    Call.runs [Call.run, Call.signalStop, Call.signalStop, Call.subscribe (.mk 1 [])] ≤ 1 ∧
    (reached (fun _ => .ok 5 : Bool → Except (Exc Unit) Nat) 0
        [Call.run, Call.signalStop, Call.signalStop, Call.subscribe (.mk 1 [])]).outcomeWrites
      = 1 ∧
    (reached (fun _ => .ok 5 : Bool → Except (Exc Unit) Nat) 0
        [Call.run, Call.signalStop, Call.signalStop, Call.subscribe (.mk 1 [])]).getResult
      = .value 5 := by
  decide

/-! ## The pending callbacks around `notify` -/

/-- C16. `DoneNotifier::notify` sets `_done` before it invokes any pending
callback.  So when a callback `f` invoked by it (in general: invoked in any state
with `_done` set) calls `subscribe(g)` on the same notifier, the call is
`DoneNotifier::subscribe` on a state with `_done` set: `g` is invoked inside that
`subscribe` call, once, and the pending list is not touched.  Over a whole
`notify`, every callback subscribed from inside a pending callback is invoked
exactly once (the invocations are those of the pending callbacks and of what
they subscribe, each once) and none of them has been added to the pending list
when the invocations are over.  In every interleaving of calls with at most one
`run()`, once `notify` has been called `_done` is set, so every `subscribe` that
comes after it takes the immediate path and leaves the pending list as it is. -/
theorem subscribe_inside_notify_is_immediate (doOp : Bool → Except (Exc E) R) (op addr : Nat)
    (s t : AsyncOpRunnable R E) (id : Nat) (resub : List Callback) (g : Callback)
    (withRun : Bool) (stops : Nat) (funcs : List Callback) (moves : List Move) :
    DoneNotifier.notify op s = Notifier.notify op (DoneNotifier.fired s) ∧
    (DoneNotifier.fired s)._done = true ∧
    (DoneNotifier.fired s)._subs = s._subs ∧
    Callback.call op (.mk id resub) t =
      resub.foldl (fun u h => DoneNotifier.subscribe h u)
        { t with invoked := t.invoked ++ [t.observe id op] } ∧
    (t._done = true →
      (DoneNotifier.subscribe g t)._subs = t._subs ∧
      (DoneNotifier.subscribe g t)._done = true ∧
      (DoneNotifier.subscribe g t).invoked =
        t.invoked ++ g.ids.map (fun i => t.observe i t._pOpWeak) ∧
      (Callback.call op (.mk id resub) t)._subs = t._subs ∧
      (Callback.call op (.mk id resub) t).invoked =
        t.invoked ++ t.observe id op ::
          (Callback.idsList resub).map (fun i => t.observe i t._pOpWeak)) ∧
    (s._subs.foldl (fun u f => f.call op u) (DoneNotifier.fired s))._subs = s._subs ∧
    (DoneNotifier.notify op s).invoked.map (fun i => i.func) =
      s.invoked.map (fun i => i.func) ++ Callback.idsList s._subs ∧
    ((interleaved doOp addr withRun stops funcs moves).op.notifyCalls ≠ 0 →
      (DoneNotifier.subscribe g (interleaved doOp addr withRun stops funcs moves).op)._subs =
        (interleaved doOp addr withRun stops funcs moves).op._subs ∧
      (DoneNotifier.subscribe g (interleaved doOp addr withRun stops funcs moves).op).invoked =
        (interleaved doOp addr withRun stops funcs moves).op.invoked ++
          g.ids.map (fun i => (interleaved doOp addr withRun stops funcs moves).op.observe i
            (interleaved doOp addr withRun stops funcs moves).op._pOpWeak)) := by
  refine ⟨rfl, rfl, rfl, ?_, ?_, ?_, ?_, ?_⟩
  · rw [Callback.call, resubscribe_eq_foldl]
  · intro hd
    rw [subscribe_of_done g t hd, call_of_done op _ t hd]
    exact ⟨rfl, hd, rfl, rfl, rfl⟩
  · rw [foldl_call_of_done op _ (DoneNotifier.fired s) rfl]
    rfl
  · rw [notify_eq]
    show (s.invoked ++ _).map (fun i => i.func) = _
    rw [List.map_append, flatMap_views_func]
  · intro hn
    have hd := done_of_notified_interleaved doOp addr withRun stops funcs moves hn
    rw [subscribe_of_done g _ hd]
    exact ⟨rfl, rfl⟩

/-- A pending callback 1 that subscribes callback 2 from inside its invocation:
`notify` invokes 1 and then 2, both seeing the operation done, and leaves
nothing pending. -/
theorem subscribe_inside_notify_is_immediate_witness :
    (DoneNotifier.notify 0
        ({ (AsyncOpRunnable.construct 0 : AsyncOpRunnable Nat Unit) with
            _subs := [.mk 1 [.mk 2 []]], _pResult := some 5 })).invoked =
      [{ func := 1, op := 0, sawDone := true, sawResult := .value 5 },
       { func := 2, op := 0, sawDone := true, sawResult := .value 5 }] ∧
    (DoneNotifier.notify 0
        ({ (AsyncOpRunnable.construct 0 : AsyncOpRunnable Nat Unit) with
            _subs := [.mk 1 [.mk 2 []]], _pResult := some 5 }))._subs = [] :=
  ⟨by decide, rfl⟩

/-- C17. After `DoneNotifier::notify` the notifier holds no pending callback:
the pending list is empty, every callback that was pending has been invoked,
and `_done` is set.  In every state reached by completed calls from a fresh
operation in which the operation is done the pending list is empty, and it is
still empty, with `_done` still set, after every further call; the same holds
in every state of every interleaving of calls with at most one `run()`. -/
theorem notifier_holds_none_after_notify (doOp : Bool → Except (Exc E) R) (op addr : Nat)
    (s : AsyncOpRunnable R E) (calls more : List Call) (withRun : Bool) (stops : Nat)
    (funcs : List Callback) (moves : List Move) :
    (DoneNotifier.notify op s)._subs = [] ∧
    (DoneNotifier.notify op s)._done = true ∧
    (DoneNotifier.notify op s).invoked.map (fun i => i.func) =
      s.invoked.map (fun i => i.func) ++ Callback.idsList s._subs ∧
    ((reached doOp addr calls).isDone = true →
      (reached doOp addr calls)._subs = [] ∧
      (reached doOp addr (calls ++ more))._subs = [] ∧
      (reached doOp addr (calls ++ more)).isDone = true) ∧
    ((interleaved doOp addr withRun stops funcs moves).op.isDone = true →
      (interleaved doOp addr withRun stops funcs moves).op._subs = []) := by
  refine ⟨notify_subs op s, notify_done op s, ?_, ?_,
    subs_empty_interleaved doOp addr withRun stops funcs moves⟩
  · rw [notify_eq]
    show (s.invoked ++ _).map (fun i => i.func) = _
    rw [List.map_append, flatMap_views_func]
  · intro hd
    have hs := settled_exec (R := R) (E := E) doOp addr calls
    have hs2 := settled_exec (R := R) (E := E) doOp addr (calls ++ more)
    have hd2 : (reached doOp addr (calls ++ more))._done = true := by
      rw [reached_append]
      exact (flags_kept_exec doOp more _).2.2 hd
    exact ⟨hs.no_subs hd, hs2.no_subs hd2, hd2⟩

/-! ## The bounds of the Xaml window -/

/-- C19. For every rect the platform reports for the Xaml window, and for the
`Rect()` used when the window is already destroyed: `_getBounds` returns a rect
with `x = 0`, `y = 0` and the converted width and height, a width or height
equal to the maximum `int` being replaced by 0; `getContentArea()` returns
`Rect(0, 0, w, h)` with the same `w` and `h`, which is the rect `_getBounds`
returns; and neither `w` nor `h` is the maximum `int`. -/
theorem getBounds_origin_and_clamped (emptyRect : winuwp.Rect) (xaml : winuwp.XamlBounds) :
    (winuwp.WindowCore._getBounds emptyRect xaml).x = 0 ∧
    (winuwp.WindowCore._getBounds emptyRect xaml).y = 0 ∧
    (winuwp.WindowCore._getBounds emptyRect xaml).width =
      (if (xaml.rect emptyRect).width = winuwp.intMax then 0 else (xaml.rect emptyRect).width) ∧
    (winuwp.WindowCore._getBounds emptyRect xaml).height =
      (if (xaml.rect emptyRect).height = winuwp.intMax then 0
        else (xaml.rect emptyRect).height) ∧
    winuwp.WindowCore.getContentArea emptyRect xaml =
      { x := 0, y := 0
        width := (winuwp.WindowCore._getBounds emptyRect xaml).width
        height := (winuwp.WindowCore._getBounds emptyRect xaml).height } ∧
    winuwp.WindowCore.getContentArea emptyRect xaml = winuwp.WindowCore._getBounds emptyRect xaml ∧
    (winuwp.WindowCore.getContentArea emptyRect xaml).width ≠ winuwp.intMax ∧
    (winuwp.WindowCore.getContentArea emptyRect xaml).height ≠ winuwp.intMax ∧
    winuwp.WindowCore._getBounds ⟨0, 0, 0, 0⟩ winuwp.XamlBounds.disconnected = ⟨0, 0, 0, 0⟩ := by
  have hmax : (0 : Int) ≠ winuwp.intMax := by decide
  cases xaml <;>
    simp only [winuwp.WindowCore._getBounds, winuwp.WindowCore.getContentArea,
      winuwp.WindowCore._getContentSize, winuwp.XamlBounds.rect] <;>
    refine ⟨?_, ?_, ?_, ?_, ?_, ?_, ?_, ?_, by decide⟩ <;>
    (try split_ifs) <;> simp_all

end bdn
